import Mathlib

/-!
# Echo server and echo client: relay, registry and lifecycle

A shallow embedding of `src/echo-server.cpp` and `src/echo-client.cpp`.

* System calls (`send`, `recv`, `accept`) are answered by scripts: lists of
  results that the kernel will hand to the coming calls.
* Code that calls `send` ends in one of three ways (`Run`): it returns
  (`done`); it needs a result when the script is empty and stays in that
  call for ever (`blocked`); or a `send` fails with `EPIPE`, the kernel
  raises `SIGPIPE` (the flags of every `send` are 0 and neither program
  installs a handler for `SIGPIPE` or ignores it), and the process is
  terminated inside the call (`killed`, with the world at that moment).
* Every system call, every acquisition and release of `g_clients_mtx` and
  every entry into `send_all` is appended to `World.trace`, oldest first.
* `SIGINT` is modelled by `on_sigint`, run while a thread is in a blocking
  call, or as a step of its own between the steps of the threads.
* `int`, `size_t` and `ssize_t` values are `Int`/`Nat`: all counters are
  bounded by the buffer length (at most 4096 in the server), ports are
  range-checked before the cast to `uint16_t`.
* One function is one thread of control. The threads together are the step
  function `step`, in which a block that holds the lock is one step and
  every statement of `main` after the accept loop is a step of its own.
-/

namespace EchoServer

/-- Contents of one `char` of a buffer; the programs never compute with it. -/
abbrev Byte := Nat

/-- Value of `EINTR` in `<cerrno>`. -/
def EINTR : Nat := 4

/-- Value of `EPIPE` in `<cerrno>`. -/
def EPIPE : Nat := 32

/-- Result of one system call: the returned value and `errno` after it. -/
structure SysRet where
  n : Int
  errno : Nat
deriving DecidableEq

/-- Lines written to `std::cerr` (peer address text left out). -/
inductive Msg where
  | disconnected
  | recv_error (errno : Nat)
  | perror_accept
  | terminated
deriving DecidableEq

/-- Observable steps of the server. -/
inductive Event where
  | lock
  | unlock
  | call_send_all (fd : Int) (buf : List Byte)
  | send (fd : Int) (data : List Byte) (r : SysRet)
  | recv (fd : Int) (r : SysRet)
  | accept (r : SysRet)
  | shutdown (fd : Int)
  | close (fd : Int)
  | spawn (cfd : Int)
  | cout (data : List Byte)
  | cerr (m : Msg)
deriving DecidableEq

/-- Options of the server: `struct ServerOptions`. -/
structure ServerOptions where
  echo : Bool := false
  broadcast : Bool := false
  port : Nat := 0
deriving DecidableEq

/-- Globals of `echo-server.cpp` together with the kernel's script for
`send` and the trace of what happened so far. -/
structure World where
  g_running : Bool
  g_listen_fd : Int
  g_clients : List Int
  sendq : List SysRet
  trace : List Event
deriving DecidableEq

/-- Append one event to the trace. -/
def World.emit (w : World) (e : Event) : World :=
  { w with trace := w.trace ++ [e] }

/-- How code that makes system calls ends: it waits in a call for ever, the
process is terminated by `SIGPIPE` (in the state `s`), or it returns. -/
inductive Run (σ α : Type) where
  | blocked : Run σ α
  | killed (s : σ) : Run σ α
  | done (a : α) : Run σ α
deriving DecidableEq

/-- The code has returned. -/
def Run.isDone {σ α : Type} : Run σ α → Bool
  | Run.done _ => true
  | _ => false

/-- The code waits in a system call for ever. -/
def Run.isBlocked {σ α : Type} : Run σ α → Bool
  | Run.blocked => true
  | _ => false

/-- Sequencing: what follows runs only when the first part has returned. -/
def Run.bind {σ α β : Type} (x : Run σ α) (f : α → Run σ β) : Run σ β :=
  match x with
  | Run.blocked => Run.blocked
  | Run.killed s => Run.killed s
  | Run.done a => f a

/-- Loop of `send_all` (both programs, same text): `sent` is the loop
variable, `q` the results of the coming `send` calls, `tr` the trace.
`send(fd, buf + sent, len - sent, 0)` is given `buf.drop sent`. A `send`
that fails with `EPIPE` does not return: `SIGPIPE` terminates the process. -/
def send_all_loop (fd : Int) (buf : List Byte) (sent : Nat) (q : List SysRet)
    (tr : List Event) :
    Run (List SysRet × List Event) (Int × List SysRet × List Event) :=
  match q with
  | [] => if sent < buf.length then Run.blocked else Run.done (sent, [], tr)
  | r :: q' =>
    if sent < buf.length then
      if r.n < 0 then
        if r.errno = EPIPE then Run.killed (q', tr ++ [Event.send fd (buf.drop sent) r])
        else if r.errno = EINTR then
          send_all_loop fd buf sent q' (tr ++ [Event.send fd (buf.drop sent) r])
        else Run.done (-1, q', tr ++ [Event.send fd (buf.drop sent) r])
      else if r.n = 0 then Run.done (sent, q', tr ++ [Event.send fd (buf.drop sent) r])
      else send_all_loop fd buf (sent + r.n.toNat) q' (tr ++ [Event.send fd (buf.drop sent) r])
    else Run.done (sent, r :: q', tr)

/-- Function `send_all(fd, buf, len)` with `len = buf.length`. -/
def send_all (fd : Int) (buf : List Byte) (w : World) : Run World (Int × World) :=
  match send_all_loop fd buf 0 w.sendq (w.trace ++ [Event.call_send_all fd buf]) with
  | Run.blocked => Run.blocked
  | Run.killed (q, tr) => Run.killed { w with sendq := q, trace := tr }
  | Run.done (r, q, tr) => Run.done (r, { w with sendq := q, trace := tr })

/-- Bytes accepted by the `send` calls recorded in a list of events. -/
def accepted : List Event → Nat
  | [] => 0
  | Event.send _ _ r :: es => r.n.toNat + accepted es
  | _ :: es => accepted es

/-- Result carried by a `send` event. -/
def sendResult : Event → Option SysRet
  | Event.send _ _ r => some r
  | _ => none

/-- A `send` result that makes `send_all` call `send` again without progress. -/
def isEintr (r : SysRet) : Bool := decide (r.n < 0) && decide (r.errno = EINTR)

/-- A `send` result with which the kernel raises `SIGPIPE`. -/
def raises_sigpipe (r : SysRet) : Bool := decide (r.n < 0) && decide (r.errno = EPIPE)

/-- No result of the script raises `SIGPIPE`. -/
def pipe_free (q : List SysRet) : Bool := q.all (fun r => !raises_sigpipe r)

/-- Function `remove_client_fd`: `std::find` then `erase` of the position found,
which removes the first occurrence only, under `g_clients_mtx`. -/
def remove_client_fd (fd : Int) (w : World) : World :=
  let w1 := w.emit Event.lock
  ({ w1 with g_clients := w1.g_clients.erase fd }).emit Event.unlock

/-- Block at lines 175-178 of `main`: `g_clients.push_back(cfd)` under the lock. -/
def push_client (cfd : Int) (w : World) : World :=
  let w1 := w.emit Event.lock
  ({ w1 with g_clients := w1.g_clients ++ [cfd] }).emit Event.unlock

/-- Range-for of `broadcast_to_all`: the result of `send_all` is discarded. -/
def broadcast_loop (buf : List Byte) : List Int → World → Run World World
  | [], w => Run.done w
  | cfd :: rest, w =>
    match send_all cfd buf w with
    | Run.blocked => Run.blocked
    | Run.killed w1 => Run.killed w1
    | Run.done (_, w1) => broadcast_loop buf rest w1

/-- Function `broadcast_to_all`: the `lock_guard` lives until the function returns. -/
def broadcast_to_all (buf : List Byte) (w : World) : Run World World :=
  match broadcast_loop buf w.g_clients (w.emit Event.lock) with
  | Run.blocked => Run.blocked
  | Run.killed w1 => Run.killed w1
  | Run.done w1 => Run.done (w1.emit Event.unlock)

/-- Function `echo_to_one`. -/
def echo_to_one (fd : Int) (buf : List Byte) (w : World) : Run World World :=
  match send_all fd buf w with
  | Run.blocked => Run.blocked
  | Run.killed w1 => Run.killed w1
  | Run.done (_, w1) => Run.done w1

/-- Lines 94-98 of `client_thread`: the relay of one received chunk. -/
def relay (opts : ServerOptions) (cfd : Int) (chunk : List Byte) (w : World) :
    Run World World :=
  if opts.broadcast then broadcast_to_all chunk w
  else if opts.echo then echo_to_one cfd chunk w
  else Run.done w

/-- Function `on_sigint`. -/
def on_sigint (w : World) : World :=
  let w1 := { w with g_running := false }
  if 0 ≤ w1.g_listen_fd then w1.emit (Event.close w1.g_listen_fd) else w1

/-- How one pass through a loop body ends: next iteration, or `break`. -/
inductive Next where
  | again
  | leave
deriving DecidableEq

/-- Lines 78-98: body of the loop of `client_thread` for one result `ret` of
`recv`; `data` is what the kernel wrote to the front of `buf`. -/
def client_iter (opts : ServerOptions) (cfd : Int) (buf : List Byte) (ret : SysRet)
    (data : List Byte) (w : World) : Run World (Next × List Byte × World) :=
  if ret.n = 0 then
    Run.done (Next.leave, buf, (w.emit (Event.recv cfd ret)).emit (Event.cerr Msg.disconnected))
  else if ret.n < 0 then
    if ret.errno = EINTR then Run.done (Next.again, buf, w.emit (Event.recv cfd ret))
    else
      Run.done (Next.leave, buf,
        (w.emit (Event.recv cfd ret)).emit (Event.cerr (Msg.recv_error ret.errno)))
  else
    match relay opts cfd ((data ++ buf.drop data.length).take ret.n.toNat)
        ((w.emit (Event.recv cfd ret)).emit
          (Event.cout ((data ++ buf.drop data.length).take ret.n.toNat))) with
    | Run.blocked => Run.blocked
    | Run.killed w3 => Run.killed w3
    | Run.done w3 => Run.done (Next.again, data ++ buf.drop data.length, w3)

/-- What happens around one blocking call: whether `SIGINT` was handled while
the thread was in the call, the result of the call, and (for `recv`) the
bytes written to the buffer. -/
structure CallEvent where
  sigint : Bool
  ret : SysRet
  data : List Byte
deriving DecidableEq

/-- The world after a blocking call during which `SIGINT` was or was not handled. -/
def signalled (sig : Bool) (w : World) : World :=
  if sig then on_sigint w else w

/-- Loop `while (g_running)` of `client_thread`, one `recv` per script entry. -/
def client_loop (opts : ServerOptions) (cfd : Int) :
    List Byte → List CallEvent → World → Run World World
  | _, [], w => if w.g_running then Run.blocked else Run.done w
  | buf, ev :: rq, w =>
    if w.g_running then
      match client_iter opts cfd buf ev.ret ev.data (signalled ev.sigint w) with
      | Run.blocked => Run.blocked
      | Run.killed w1 => Run.killed w1
      | Run.done (Next.leave, _, w1) => Run.done w1
      | Run.done (Next.again, buf1, w1) => client_loop opts cfd buf1 rq w1
    else Run.done w

/-- Lines 101-103 of `client_thread`. -/
def teardown (cfd : Int) (w : World) : World :=
  remove_client_fd cfd ((w.emit (Event.shutdown cfd)).emit (Event.close cfd))

/-- Function `client_thread`. -/
def client_thread (opts : ServerOptions) (cfd : Int) (buf : List Byte)
    (rq : List CallEvent) (w : World) : Run World World :=
  match client_loop opts cfd buf rq w with
  | Run.blocked => Run.blocked
  | Run.killed w1 => Run.killed w1
  | Run.done w1 => Run.done (teardown cfd w1)

/-- Range-for at lines 185-188. -/
def close_all : List Int → World → World
  | [], w => w
  | fd :: rest, w => close_all rest ((w.emit (Event.shutdown fd)).emit (Event.close fd))

/-- Block at lines 183-190 of `main`. -/
def shutdown_clients (w : World) : World :=
  let w1 := close_all w.g_clients (w.emit Event.lock)
  ({ w1 with g_clients := [] }).emit Event.unlock

/-- Lines 183-194 of `main`: the termination sequence and the exit code. -/
def main_exit (w : World) : Int × World :=
  let w1 := shutdown_clients w
  let w2 := if 0 ≤ w1.g_listen_fd then w1.emit (Event.close w1.g_listen_fd) else w1
  (0, w2.emit (Event.cerr Msg.terminated))

/-- Function `isspace` of the C locale. -/
def isspace (c : Char) : Bool :=
  decide (c.toNat = 32) || (decide (9 ≤ c.toNat) && decide (c.toNat ≤ 13))

/-- Function `isdigit`. -/
def isdigit (c : Char) : Bool :=
  decide (48 ≤ c.toNat) && decide (c.toNat ≤ 57)

/-- Decimal value of a run of digits. -/
def digits_value (cs : List Char) : Nat :=
  cs.foldl (fun acc c => 10 * acc + (c.toNat - 48)) 0

/-- Digits part of `std::stoi`: the longest run of digits is converted, what
follows it is ignored; `none` is a thrown exception (`invalid_argument` when
there is no digit, `out_of_range` when the value does not fit `int`). -/
def stoi_digits (neg : Bool) (cs : List Char) : Option Int :=
  if (cs.takeWhile isdigit).isEmpty then none
  else if neg then
    if (2147483648 : Int) < digits_value (cs.takeWhile isdigit) then none
    else some (-(digits_value (cs.takeWhile isdigit) : Int))
  else
    if (2147483647 : Int) < digits_value (cs.takeWhile isdigit) then none
    else some (digits_value (cs.takeWhile isdigit) : Int)

/-- Library function `std::stoi(str)` in base 10, as the C++ standard defines it
through `strtol`: leading white space is skipped, one sign is read, then the
digits. -/
def stoi (s : String) : Option Int :=
  match s.toList.dropWhile isspace with
  | [] => none
  | c :: rest =>
    if c = '-' then stoi_digits true rest
    else if c = '+' then stoi_digits false rest
    else stoi_digits false (c :: rest)

/-- The `try` block of both `main` functions (server lines 113-120, client
lines 63-70): `none` is the `catch` branch, usage message and `return 1`. -/
def parse_port (s : String) : Option Nat :=
  match stoi s with
  | none => none
  | some p => if p ≤ 0 ∨ 65535 < p then none else some (p % 65536).toNat

/-- Lines 122-130 of the server's `main`. -/
def parse_flags : List String → ServerOptions → Option ServerOptions
  | [], o => some o
  | a :: rest, o =>
    if a = "-e" then parse_flags rest { o with echo := true }
    else if a = "-b" then parse_flags rest { o with broadcast := true }
    else none

/-- Lines 107-130 of the server's `main` on `argv`; `none` is `return 1`. -/
def server_args : List String → Option ServerOptions
  | _ :: p :: flags =>
    match parse_port p with
    | none => none
    | some port => parse_flags flags { port := port }
  | _ => none

/-- Lines 56-70 of the client's `main` on `argv`; `none` is `return 1`. -/
def client_args : List String → Option (String × Nat)
  | [_, ip, p] =>
    match parse_port p with
    | none => none
    | some port => some (ip, port)
  | _ => none

/-- A string that is a decimal integer: an optional sign and then digits only. -/
def isInteger (s : String) : Bool :=
  match s.toList with
  | [] => false
  | c :: rest =>
    if c = '-' ∨ c = '+' then !rest.isEmpty && rest.all isdigit
    else (c :: rest).all isdigit

/-- The string `l` begins, after optional white space and an optional `+`,
with a run of decimal digits that is not followed by a further digit and
whose value is `p`. -/
def reads_port (l : List Char) (p : Nat) : Prop :=
  ∃ ws sign digs rest, l = ws ++ sign ++ digs ++ rest ∧
    (∀ c ∈ ws, isspace c = true) ∧ (sign = [] ∨ sign = ['+']) ∧
    digs ≠ [] ∧ (∀ c ∈ digs, isdigit c = true) ∧
    (∀ c, rest.head? = some c → isdigit c = false) ∧ digits_value digs = p

/-! ## Registry operations as a sequence -/

/-- One operation on the registry. -/
inductive RegOp where
  | add (fd : Int)
  | remove (fd : Int)
deriving DecidableEq

/-- Run registry operations one after the other (each holds the lock for
its whole duration, so concurrent operations take effect in some order). -/
def apply_ops : List RegOp → World → World
  | [], w => w
  | RegOp.add fd :: ops, w => apply_ops ops (push_client fd w)
  | RegOp.remove fd :: ops, w => apply_ops ops (remove_client_fd fd w)

/-- Every `add` in the sequence is of a handle that is not registered when
it is added. -/
def fresh_adds : List RegOp → World → Bool
  | [], _ => true
  | RegOp.add fd :: ops, w => decide (fd ∉ w.g_clients) && fresh_adds ops (push_client fd w)
  | RegOp.remove fd :: ops, w => fresh_adds ops (remove_client_fd fd w)

/-- World of a server that has just begun to listen. -/
def initial (listen_fd : Int) (sendq : List SysRet) : World :=
  { g_running := true, g_listen_fd := listen_fd, g_clients := [], sendq := sendq, trace := [] }

/-! ## The server as interleaved threads -/

/-- Where a session thread is in `client_thread`: at the loop head (line 77),
loop left and before `shutdown` (101), before `close` (102), before
`remove_client_fd` (103), returned. -/
inductive SessPc where
  | reading
  | atShutdown
  | atClose
  | atRemove
  | closed
deriving DecidableEq

/-- One Peer Session: its handle, its place in `client_thread`, its buffer. -/
structure Sess where
  cfd : Int
  pc : SessPc
  buf : List Byte
deriving DecidableEq

/-- Where the main thread is in lines 164-194: at the loop head (164),
blocked in `accept` (167), before the `push_back` of an accepted handle
(175), before the creation of its thread (180), before the locked block of
the termination sequence (183), after that block and before the `close` of
the listening socket (192), before the last message and `return 0` (193),
returned from `main`. -/
inductive AccPc where
  | loopHead
  | inAccept
  | atPush (cfd : Int)
  | atSpawn (cfd : Int)
  | atCleanup
  | atCloseListen
  | atReturn
  | exited
deriving DecidableEq

/-- The main thread has run `g_clients.clear()` of the termination sequence. -/
def AccPc.cleared : AccPc → Bool
  | AccPc.atCloseListen => true
  | AccPc.atReturn => true
  | AccPc.exited => true
  | _ => false

/-- State of the server process; `alive` is false once `SIGPIPE` has
terminated it. -/
structure Server where
  opts : ServerOptions
  w : World
  acc : AccPc
  sessions : List Sess
  alive : Bool
deriving DecidableEq

/-- One scheduling decision: the signal handler runs, the main thread takes
its next step (`r` is what `accept` returns when the step is that return),
or session `i` takes its next step (`r`, `data` are what `recv` returns
when the step is a pass through the loop body). -/
inductive Action where
  | sigint
  | acceptor (r : SysRet)
  | session (i : Nat) (r : SysRet) (data : List Byte)
deriving DecidableEq

/-- Next step of the main thread. -/
def acceptor_step (s : Server) (r : SysRet) : Option Server :=
  match s.acc with
  | AccPc.loopHead =>
    some { s with acc := if s.w.g_running then AccPc.inAccept else AccPc.atCleanup }
  | AccPc.inAccept =>
    if r.n < 0 then
      if !s.w.g_running then
        some { s with w := s.w.emit (Event.accept r), acc := AccPc.atCleanup }
      else if r.errno = EINTR then
        some { s with w := s.w.emit (Event.accept r), acc := AccPc.loopHead }
      else
        some { s with w := (s.w.emit (Event.accept r)).emit (Event.cerr Msg.perror_accept),
                      acc := AccPc.loopHead }
    else some { s with w := s.w.emit (Event.accept r), acc := AccPc.atPush r.n }
  | AccPc.atPush cfd => some { s with w := push_client cfd s.w, acc := AccPc.atSpawn cfd }
  | AccPc.atSpawn cfd =>
    some { s with w := s.w.emit (Event.spawn cfd),
                  sessions := s.sessions ++ [{ cfd := cfd, pc := SessPc.reading, buf := [] }],
                  acc := AccPc.loopHead }
  | AccPc.atCleanup => some { s with w := shutdown_clients s.w, acc := AccPc.atCloseListen }
  | AccPc.atCloseListen =>
    some { s with w := if 0 ≤ s.w.g_listen_fd then s.w.emit (Event.close s.w.g_listen_fd)
                       else s.w,
                  acc := AccPc.atReturn }
  | AccPc.atReturn =>
    some { s with w := s.w.emit (Event.cerr Msg.terminated), acc := AccPc.exited }
  | AccPc.exited => none

/-- Next step of the session `ss`, which is number `i`. -/
def session_step (s : Server) (i : Nat) (ss : Sess) (r : SysRet) (data : List Byte) :
    Option Server :=
  match ss.pc with
  | SessPc.reading =>
    if s.w.g_running then
      match client_iter s.opts ss.cfd ss.buf r data s.w with
      | Run.blocked => none
      | Run.killed w1 => some { s with w := w1, alive := false }
      | Run.done (Next.again, buf1, w1) =>
        some { s with w := w1, sessions := s.sessions.set i { ss with buf := buf1 } }
      | Run.done (Next.leave, _, w1) =>
        some { s with w := w1, sessions := s.sessions.set i { ss with pc := SessPc.atShutdown } }
    else some { s with sessions := s.sessions.set i { ss with pc := SessPc.atShutdown } }
  | SessPc.atShutdown =>
    some { s with w := s.w.emit (Event.shutdown ss.cfd),
                  sessions := s.sessions.set i { ss with pc := SessPc.atClose } }
  | SessPc.atClose =>
    some { s with w := s.w.emit (Event.close ss.cfd),
                  sessions := s.sessions.set i { ss with pc := SessPc.atRemove } }
  | SessPc.atRemove =>
    some { s with w := remove_client_fd ss.cfd s.w,
                  sessions := s.sessions.set i { ss with pc := SessPc.closed } }
  | SessPc.closed => none

/-- One step of the process; nothing runs once `main` has returned or
`SIGPIPE` has terminated the process. A step that would wait for ever in a
system call is not taken (`none`). -/
def step (s : Server) (a : Action) : Option Server :=
  if s.acc = AccPc.exited then none
  else if s.alive = false then none
  else
    match a with
    | Action.sigint => some { s with w := on_sigint s.w }
    | Action.acceptor r => acceptor_step s r
    | Action.session i r data =>
      match s.sessions.get? i with
      | none => none
      | some ss => session_step s i ss r data

/-- Run a schedule. -/
def run : Server → List Action → Option Server
  | s, [] => some s
  | s, a :: rest =>
    match step s a with
    | none => none
    | some s1 => run s1 rest

/-- The process when `main` reaches the accept loop. -/
def boot (opts : ServerOptions) (listen_fd : Int) (sendq : List SysRet) : Server :=
  { opts := opts, w := initial listen_fd sendq, acc := AccPc.loopHead, sessions := [],
    alive := true }

/-- A session that is alive and has not begun teardown. -/
def Sess.live (ss : Sess) : Bool := decide (ss.pc = SessPc.reading)

/-- A session that has not yet returned from `remove_client_fd`. -/
def Sess.unremoved (ss : Sess) : Bool := decide (ss.pc ≠ SessPc.closed)

/-- Bookkeeping of the registry: until the termination sequence clears the
registry, the number of entries for a handle is the number of its sessions
that have not returned from `remove_client_fd`, plus one for a handle
pushed whose thread is not yet created; from then on the registry is empty. -/
def registry_inv (s : Server) : Prop :=
  (s.acc.cleared = false → ∀ fd : Int,
    s.w.g_clients.count fd =
      s.sessions.countP (fun ss => decide (ss.cfd = fd) && ss.unremoved) +
        (if s.acc = AccPc.atSpawn fd then 1 else 0)) ∧
  (s.acc.cleared = true → s.w.g_clients = [])

/-! ## Reading the trace -/

/-- Calls of `send_all` recorded in a list of events: handle and buffer. -/
def attempts : List Event → List (Int × List Byte)
  | [] => []
  | Event.call_send_all fd buf :: es => (fd, buf) :: attempts es
  | _ :: es => attempts es

/-- System calls that block: `send`, `recv`, `accept`. -/
def blocking : Event → Bool
  | Event.send _ _ _ => true
  | Event.recv _ _ => true
  | Event.accept _ => true
  | _ => false

/-- No blocking call is made while `g_clients_mtx` is held; `held` says
whether it is held before the first event. -/
def lock_free_io : Bool → List Event → Bool
  | _, [] => true
  | _, Event.lock :: es => lock_free_io true es
  | _, Event.unlock :: es => lock_free_io false es
  | held, e :: es => (!(held && blocking e)) && lock_free_io held es

/-- Every `send` is made while `g_clients_mtx` is held. -/
def sends_under_lock : Bool → List Event → Bool
  | _, [] => true
  | _, Event.lock :: es => sends_under_lock true es
  | _, Event.unlock :: es => sends_under_lock false es
  | held, Event.send _ _ _ :: es => held && sends_under_lock held es
  | held, _ :: es => sends_under_lock held es

/-- Events of one broadcast of `buf` to the handles `cl`: a call of `send_all`
with `buf` itself, or a `send` of a suffix of `buf`, on a handle of `cl`. -/
def fanout_event (cl : List Int) (buf : List Byte) : Event → Bool
  | Event.call_send_all fd b => decide (fd ∈ cl) && decide (b = buf)
  | Event.send fd data _ => decide (fd ∈ cl) && decide (data = buf.drop (buf.length - data.length))
  | _ => false

/-- Events of the range-for of the termination sequence. -/
def close_events : List Int → List Event
  | [] => []
  | fd :: rest => Event.shutdown fd :: Event.close fd :: close_events rest

/-! ## Theorems -/

/-- What the loop of `send_all` does, from any value of `sent`, when it
returns. -/
theorem send_all_loop_spec (fd : Int) (buf : List Byte) :
    ∀ (q : List SysRet) (sent : Nat) (tr : List Event) (r : Int) (q1 : List SysRet)
      (tr1 : List Event),
      send_all_loop fd buf sent q tr = Run.done (r, q1, tr1) →
      ∃ sends, tr1 = tr ++ sends ∧ q = sends.filterMap sendResult ++ q1 ∧
        (∀ pre e post, sends = pre ++ e :: post →
          ∃ r0, e = Event.send fd (buf.drop (sent + accepted pre)) r0 ∧
            sent + accepted pre < buf.length ∧
            (post ≠ [] → (r0.n < 0 ∧ r0.errno = EINTR) ∨ 0 < r0.n)) ∧
        ((∀ data r0, Event.send fd data r0 ∈ sends → r0.n ≤ data.length) →
          sent ≤ buf.length →
          (r = buf.length ∧ sent + accepted sends = buf.length) ∨
          (r = -1 ∧ ∃ pre data r0, sends = pre ++ [Event.send fd data r0] ∧
            r0.n < 0 ∧ r0.errno ≠ EINTR ∧ r0.errno ≠ EPIPE) ∨
          (r = (sent + accepted sends : Nat) ∧ sent + accepted sends < buf.length ∧
            ∃ pre data r0, sends = pre ++ [Event.send fd data r0] ∧ r0.n = 0)) := by
  intro q
  induction q with
  | nil =>
    intro sent tr r q1 tr1 h
    unfold send_all_loop at h
    split at h
    · cases h
    · rename_i hlt
      simp only [Run.done.injEq, Prod.mk.injEq] at h
      obtain ⟨hr, hq, ht⟩ := h
      refine ⟨[], by simp [ht], by simp [hq], ?_, ?_⟩
      · intro pre e post hsp
        simp at hsp
      · intro _ hle
        left
        simp only [accepted, Nat.add_zero]
        have : sent = buf.length := by omega
        exact ⟨by rw [← hr, this], this⟩
  | cons r0 q ih =>
    intro sent tr r q1 tr1 h
    unfold send_all_loop at h
    by_cases hlt : sent < buf.length
    · simp only [hlt, if_true] at h
      by_cases hneg : r0.n < 0
      · simp only [hneg, if_true] at h
        by_cases hp : r0.errno = EPIPE
        · simp only [hp, if_true] at h
          cases h
        · simp only [hp, if_false] at h
          by_cases he : r0.errno = EINTR
          · simp only [he, if_true] at h
            obtain ⟨sends, ht, hq, hpre, hout⟩ := ih sent _ r q1 tr1 h
            refine ⟨Event.send fd (buf.drop sent) r0 :: sends, by simp [ht],
              by simp [sendResult, hq], ?_, ?_⟩
            · intro pre e post hsp
              cases pre with
              | nil =>
                simp only [List.nil_append, List.cons.injEq] at hsp
                refine ⟨r0, by simp [hsp.1.symm, accepted], by simpa [accepted] using hlt, ?_⟩
                intro _
                exact Or.inl ⟨hneg, he⟩
              | cons p pre1 =>
                simp only [List.cons_append, List.cons.injEq] at hsp
                obtain ⟨r1, h1, h2, h3⟩ := hpre pre1 e post hsp.2
                have hz : r0.n.toNat = 0 := by omega
                refine ⟨r1, ?_, ?_, h3⟩
                · rw [← hsp.1]; simpa [accepted, hz] using h1
                · rw [← hsp.1]; simpa [accepted, hz] using h2
            · intro hc hle
              have hz : r0.n.toNat = 0 := by omega
              have hc1 : ∀ data r1, Event.send fd data r1 ∈ sends → r1.n ≤ data.length :=
                fun data r1 hm => hc data r1 (List.mem_cons_of_mem _ hm)
              rcases hout hc1 hle with h1 | h1 | h1
              · left; simpa [accepted, hz] using h1
              · right; left
                obtain ⟨hr, pre, data, r1, hs, hh⟩ := h1
                exact ⟨hr, Event.send fd (buf.drop sent) r0 :: pre, data, r1, by simp [hs], hh⟩
              · right; right
                obtain ⟨hr, hl, pre, data, r1, hs, hh⟩ := h1
                refine ⟨by simpa [accepted, hz] using hr, by simpa [accepted, hz] using hl,
                  Event.send fd (buf.drop sent) r0 :: pre, data, r1, by simp [hs], hh⟩
          · simp only [he, if_false, Run.done.injEq, Prod.mk.injEq] at h
            obtain ⟨hr, hq, ht⟩ := h
            refine ⟨[Event.send fd (buf.drop sent) r0], ht.symm, by simp [sendResult, hq],
              ?_, ?_⟩
            · intro pre e post hsp
              cases pre with
              | nil =>
                simp only [List.nil_append, List.cons.injEq] at hsp
                refine ⟨r0, by simp [hsp.1.symm, accepted], by simpa [accepted] using hlt, ?_⟩
                intro hp1
                exact absurd hsp.2.symm hp1
              | cons p pre1 =>
                simp at hsp
            · intro _ _
              right; left
              exact ⟨hr.symm, [], buf.drop sent, r0, rfl, hneg, he, hp⟩
      · simp only [hneg, if_false] at h
        by_cases hz : r0.n = 0
        · simp only [hz, if_true, Run.done.injEq, Prod.mk.injEq] at h
          obtain ⟨hr, hq, ht⟩ := h
          refine ⟨[Event.send fd (buf.drop sent) r0], ht.symm, by simp [sendResult, hq], ?_, ?_⟩
          · intro pre e post hsp
            cases pre with
            | nil =>
              simp only [List.nil_append, List.cons.injEq] at hsp
              refine ⟨r0, by simp [hsp.1.symm, accepted], by simpa [accepted] using hlt, ?_⟩
              intro hp
              exact absurd hsp.2.symm hp
            | cons p pre1 =>
              simp at hsp
          · intro _ _
            right; right
            refine ⟨by simp [accepted, hz, ← hr], by simpa [accepted, hz] using hlt,
              [], buf.drop sent, r0, rfl, hz⟩
        · simp only [hz, if_false] at h
          obtain ⟨sends, ht, hq, hpre, hout⟩ := ih _ _ r q1 tr1 h
          refine ⟨Event.send fd (buf.drop sent) r0 :: sends, by simp [ht],
            by simp [sendResult, hq], ?_, ?_⟩
          · intro pre e post hsp
            cases pre with
            | nil =>
              simp only [List.nil_append, List.cons.injEq] at hsp
              refine ⟨r0, by simp [hsp.1.symm, accepted], by simpa [accepted] using hlt, ?_⟩
              intro _
              exact Or.inr (by omega)
            | cons p pre1 =>
              simp only [List.cons_append, List.cons.injEq] at hsp
              obtain ⟨r1, h1, h2, h3⟩ := hpre pre1 e post hsp.2
              refine ⟨r1, ?_, ?_, h3⟩
              · rw [← hsp.1]; simpa [accepted, Nat.add_assoc] using h1
              · rw [← hsp.1]; simpa [accepted, Nat.add_assoc] using h2
          · intro hc hle
            have hc0 : r0.n ≤ ((buf.drop sent).length : Int) :=
              hc (buf.drop sent) r0 (List.mem_cons_self _ _)
            have hle1 : sent + r0.n.toNat ≤ buf.length := by
              simp only [List.length_drop] at hc0
              omega
            have hc1 : ∀ data r1, Event.send fd data r1 ∈ sends → r1.n ≤ data.length :=
              fun data r1 hm => hc data r1 (List.mem_cons_of_mem _ hm)
            rcases hout hc1 hle1 with h1 | h1 | h1
            · left; simpa [accepted, Nat.add_assoc] using h1
            · right; left
              obtain ⟨hr, pre, data, r1, hs, hh⟩ := h1
              exact ⟨hr, Event.send fd (buf.drop sent) r0 :: pre, data, r1, by simp [hs], hh⟩
            · right; right
              obtain ⟨hr, hl, pre, data, r1, hs, hh⟩ := h1
              refine ⟨by simpa [accepted, Nat.add_assoc] using hr,
                by simpa [accepted, Nat.add_assoc] using hl,
                Event.send fd (buf.drop sent) r0 :: pre, data, r1, by simp [hs], hh⟩
    · simp only [hlt, if_false, Run.done.injEq, Prod.mk.injEq] at h
      obtain ⟨hr, hq, ht⟩ := h
      refine ⟨[], by simp [ht], by simp [hq], ?_, ?_⟩
      · intro pre e post hsp
        simp at hsp
      · intro _ hle
        left
        simp only [accepted, Nat.add_zero]
        have : sent = buf.length := by omega
        exact ⟨by rw [← hr, this], this⟩

/-- The loop of `send_all` does not wait for ever once the script holds
enough results that are not `EINTR`, and it returns when moreover no result
raises `SIGPIPE`. -/
theorem send_all_loop_returns (fd : Int) (buf : List Byte) :
    ∀ (q : List SysRet) (sent : Nat) (tr : List Event),
      buf.length ≤ sent + q.countP (fun r => !isEintr r) →
      (send_all_loop fd buf sent q tr).isBlocked = false ∧
      (pipe_free q = true → (send_all_loop fd buf sent q tr).isDone = true) := by
  intro q
  induction q with
  | nil =>
    intro sent tr h
    unfold send_all_loop
    simp only [List.countP_nil, Nat.add_zero] at h
    simp [Nat.not_lt.mpr h, Run.isBlocked, Run.isDone]
  | cons r0 q ih =>
    intro sent tr h
    unfold send_all_loop
    by_cases hlt : sent < buf.length
    · simp only [hlt, if_true]
      by_cases hneg : r0.n < 0
      · simp only [hneg, if_true]
        by_cases hp : r0.errno = EPIPE
        · simp only [hp, if_true]
          refine ⟨rfl, ?_⟩
          intro hpf
          simp [pipe_free, raises_sigpipe, hneg, hp] at hpf
        · simp only [hp, if_false]
          by_cases he : r0.errno = EINTR
          · simp only [he, if_true]
            have := ih sent (tr ++ [Event.send fd (buf.drop sent) r0])
              (by simpa [List.countP_cons, isEintr, hneg, he] using h)
            refine ⟨this.1, ?_⟩
            intro hpf
            apply this.2
            simp only [pipe_free, List.all_cons, Bool.and_eq_true] at hpf
            exact hpf.2
          · simp [he, Run.isBlocked, Run.isDone]
      · simp only [hneg, if_false]
        by_cases hz : r0.n = 0
        · simp [hz, Run.isBlocked, Run.isDone]
        · simp only [hz, if_false]
          have h1 : isEintr r0 = false := by simp [isEintr, hneg]
          simp only [List.countP_cons, h1] at h
          simp only [Bool.not_false, if_true] at h
          have := ih (sent + r0.n.toNat) (tr ++ [Event.send fd (buf.drop sent) r0]) (by omega)
          refine ⟨this.1, ?_⟩
          intro hpf
          apply this.2
          simp only [pipe_free, List.all_cons, Bool.and_eq_true] at hpf
          exact hpf.2
    · simp [hlt, Run.isBlocked, Run.isDone]

/-- One call of `send_all` that returns uses up at most `len - sent` results
that are not `EINTR`. -/
theorem send_all_loop_consumes (fd : Int) (buf : List Byte) :
    ∀ (q : List SysRet) (sent : Nat) (tr : List Event) (r : Int) (q1 : List SysRet)
      (tr1 : List Event),
      send_all_loop fd buf sent q tr = Run.done (r, q1, tr1) →
      q.countP (fun r => !isEintr r) ≤ q1.countP (fun r => !isEintr r) + (buf.length - sent) := by
  intro q
  induction q with
  | nil =>
    intro sent tr r q1 tr1 h
    simp
  | cons r0 q ih =>
    intro sent tr r q1 tr1 h
    unfold send_all_loop at h
    by_cases hlt : sent < buf.length
    · simp only [hlt, if_true] at h
      by_cases hneg : r0.n < 0
      · simp only [hneg, if_true] at h
        by_cases hp : r0.errno = EPIPE
        · simp only [hp, if_true] at h
          cases h
        · simp only [hp, if_false] at h
          by_cases he : r0.errno = EINTR
          · simp only [he, if_true] at h
            have := ih _ _ _ _ _ h
            simpa [List.countP_cons, isEintr, hneg, he] using this
          · simp only [he, if_false, Run.done.injEq, Prod.mk.injEq] at h
            rw [← h.2.1]
            simp only [List.countP_cons]
            split <;> omega
      · simp only [hneg, if_false] at h
        by_cases hz : r0.n = 0
        · simp only [hz, if_true, Run.done.injEq, Prod.mk.injEq] at h
          rw [← h.2.1]
          simp only [List.countP_cons]
          split <;> omega
        · simp only [hz, if_false] at h
          have := ih _ _ _ _ _ h
          simp only [List.countP_cons]
          split <;> omega
    · simp only [hlt, if_false, Run.done.injEq, Prod.mk.injEq] at h
      rw [← h.2.1]
      omega

/-- A call of `send_all` that ends touches the script and the trace only. -/
theorem send_all_killed_frame (fd : Int) (buf : List Byte) (w w1 : World)
    (h : send_all fd buf w = Run.killed w1) :
    w1.g_clients = w.g_clients ∧ w1.g_running = w.g_running ∧
    w1.g_listen_fd = w.g_listen_fd := by
  unfold send_all at h
  split at h
  · cases h
  · simp only [Run.killed.injEq] at h
    subst h
    exact ⟨rfl, rfl, rfl⟩
  · cases h

/-- A call of `send_all` that returns touches the script and the trace only. -/
theorem send_all_frame (fd : Int) (buf : List Byte) (w : World) (r : Int) (w1 : World)
    (h : send_all fd buf w = Run.done (r, w1)) :
    w1.g_clients = w.g_clients ∧ w1.g_running = w.g_running ∧ w1.g_listen_fd = w.g_listen_fd ∧
    w.sendq.countP (fun r => !isEintr r) ≤ w1.sendq.countP (fun r => !isEintr r) + buf.length ∧
    (pipe_free w.sendq = true → pipe_free w1.sendq = true) ∧
    ∃ sends, w1.trace = w.trace ++ Event.call_send_all fd buf :: sends ∧
      ∀ e ∈ sends, ∃ k r0, e = Event.send fd (buf.drop k) r0 := by
  unfold send_all at h
  split at h
  · cases h
  · cases h
  · rename_i r1 q1 tr1 heq
    simp only [Run.done.injEq, Prod.mk.injEq] at h
    obtain ⟨_, hw⟩ := h
    subst hw
    obtain ⟨sends, ht, hq, hpre, _⟩ := send_all_loop_spec fd buf _ _ _ _ _ _ heq
    refine ⟨rfl, rfl, rfl, ?_, ?_, ?_⟩
    · simpa using send_all_loop_consumes fd buf _ _ _ _ _ _ heq
    · intro hpf
      rw [hq] at hpf
      simp only [pipe_free, List.all_append, Bool.and_eq_true] at hpf
      exact hpf.2
    · refine ⟨sends, by simp [ht], ?_⟩
      intro e he
      obtain ⟨pre, post, hsp⟩ := List.append_of_mem he
      obtain ⟨r0, h0, _⟩ := hpre pre e post hsp
      exact ⟨_, r0, h0⟩

/-- A call of `send_all` does not wait for ever once the script holds `len`
results that are not `EINTR`, and returns when none of them raises `SIGPIPE`. -/
theorem send_all_returns (fd : Int) (buf : List Byte) (w : World)
    (h : buf.length ≤ w.sendq.countP (fun r => !isEintr r)) :
    (send_all fd buf w).isBlocked = false ∧
    (pipe_free w.sendq = true → (send_all fd buf w).isDone = true) := by
  have h1 := send_all_loop_returns fd buf w.sendq 0 (w.trace ++ [Event.call_send_all fd buf])
    (by simpa using h)
  unfold send_all
  split
  · rename_i heq
    rw [heq] at h1
    exact absurd h1.1 (by simp [Run.isBlocked])
  · rename_i heq
    rw [heq] at h1
    exact ⟨rfl, fun hpf => h1.2 hpf⟩
  · exact ⟨rfl, fun _ => rfl⟩

/-! ### C3: `send_all` -/

/-- C3, as amended. `send_all` does not wait for ever once the script holds
`len` results other than `EINTR`, and it returns when none of them is the
failure that raises `SIGPIPE`. Whenever it returns, the results it used are
the front of the script, every `send` was given the suffix of the buffer
that earlier calls had not accepted, every result but the last was an
`EINTR` or a positive count (a retry), and, the kernel never accepting more
than it was given, the call stopped in one of three ways: all `len` bytes
accepted and `len` returned; a failure other than `EINTR` and `-1`
returned; or a `send` that returned 0, and the count accepted so far, less
than `len`, returned. -/
theorem send_all_stops (fd : Int) (buf : List Byte) (w : World) :
    (buf.length ≤ w.sendq.countP (fun r => !isEintr r) →
      (send_all fd buf w).isBlocked = false ∧
      (pipe_free w.sendq = true → (send_all fd buf w).isDone = true)) ∧
    ∀ r w1, send_all fd buf w = Run.done (r, w1) →
      ∃ sends, w1.trace = w.trace ++ Event.call_send_all fd buf :: sends ∧
        w.sendq = sends.filterMap sendResult ++ w1.sendq ∧
        (∀ pre e post, sends = pre ++ e :: post →
          ∃ r0, e = Event.send fd (buf.drop (accepted pre)) r0 ∧ accepted pre < buf.length ∧
            (post ≠ [] → (r0.n < 0 ∧ r0.errno = EINTR) ∨ 0 < r0.n)) ∧
        ((∀ data r0, Event.send fd data r0 ∈ sends → r0.n ≤ data.length) →
          (r = buf.length ∧ accepted sends = buf.length) ∨
          (r = -1 ∧ ∃ pre data r0, sends = pre ++ [Event.send fd data r0] ∧
            r0.n < 0 ∧ r0.errno ≠ EINTR ∧ r0.errno ≠ EPIPE) ∨
          (r = (accepted sends : Nat) ∧ accepted sends < buf.length ∧
            ∃ pre data r0, sends = pre ++ [Event.send fd data r0] ∧ r0.n = 0)) := by
  refine ⟨send_all_returns fd buf w, ?_⟩
  intro r w1 h
  unfold send_all at h
  split at h
  · cases h
  · cases h
  · rename_i r1 q1 tr1 heq
    simp only [Run.done.injEq, Prod.mk.injEq] at h
    obtain ⟨hr, hw⟩ := h
    subst hw hr
    obtain ⟨sends, ht, hq, hpre, hout⟩ := send_all_loop_spec fd buf _ _ _ _ _ _ heq
    refine ⟨sends, by simp [ht], by simpa using hq, ?_, ?_⟩
    · intro pre e post hsp
      simpa using hpre pre e post hsp
    · intro hc
      simpa using hout hc (Nat.zero_le _)

/-- C3 on a script with a short write, an interrupt and the rest: the call
returns, 3 of 3 bytes are accepted in three calls of `send`, 3 is returned. -/
theorem send_all_stops_witness :
    (send_all 4 [7, 8, 9] (initial 3 [⟨2, 0⟩, ⟨-1, 4⟩, ⟨1, 0⟩, ⟨5, 0⟩])).isDone = true ∧
    send_all 4 [7, 8, 9] (initial 3 [⟨2, 0⟩, ⟨-1, 4⟩, ⟨1, 0⟩, ⟨5, 0⟩]) =
      Run.done (3, { initial 3 [⟨5, 0⟩] with
        trace := [Event.call_send_all 4 [7, 8, 9], Event.send 4 [7, 8, 9] ⟨2, 0⟩,
          Event.send 4 [9] ⟨-1, 4⟩, Event.send 4 [9] ⟨1, 0⟩] }) ∧
    accepted [Event.send 4 [7, 8, 9] ⟨2, 0⟩, Event.send 4 [9] ⟨-1, 4⟩,
      Event.send 4 [9] ⟨1, 0⟩] = ([7, 8, 9] : List Byte).length := by
  have hrun : send_all 4 [7, 8, 9] (initial 3 [⟨2, 0⟩, ⟨-1, 4⟩, ⟨1, 0⟩, ⟨5, 0⟩]) =
      Run.done (3, { initial 3 [⟨5, 0⟩] with
        trace := [Event.call_send_all 4 [7, 8, 9], Event.send 4 [7, 8, 9] ⟨2, 0⟩,
          Event.send 4 [9] ⟨-1, 4⟩, Event.send 4 [9] ⟨1, 0⟩] }) := by decide
  refine ⟨((send_all_stops 4 [7, 8, 9] (initial 3 [⟨2, 0⟩, ⟨-1, 4⟩, ⟨1, 0⟩, ⟨5, 0⟩])).1
    (by decide)).2 (by decide), hrun, ?_⟩
  obtain ⟨sends, ht, _, _, hout⟩ :=
    (send_all_stops 4 [7, 8, 9] (initial 3 [⟨2, 0⟩, ⟨-1, 4⟩, ⟨1, 0⟩, ⟨5, 0⟩])).2 _ _ hrun
  have hs : sends = [Event.send 4 [7, 8, 9] ⟨2, 0⟩, Event.send 4 [9] ⟨-1, 4⟩,
      Event.send 4 [9] ⟨1, 0⟩] := by
    simpa [initial] using ht.symm
  subst hs
  have hc : ∀ data r0, Event.send 4 data r0 ∈ [Event.send 4 [7, 8, 9] ⟨2, 0⟩,
      Event.send 4 [9] ⟨-1, 4⟩, Event.send 4 [9] ⟨1, 0⟩] → r0.n ≤ data.length := by
    intro data r0 hm
    simp only [List.mem_cons, Event.send.injEq, true_and, List.mem_singleton,
      List.not_mem_nil, or_false] at hm
    rcases hm with ⟨rfl, rfl⟩ | ⟨rfl, rfl⟩ | ⟨rfl, rfl⟩ <;> decide
  rcases hout hc with h | h | h
  · exact h.2
  · exact absurd h.1 (by decide)
  · exact absurd h.2.1 (by decide)

/-- C3 as stated fails: `send` returns 0 on the first call, `send_all`
stops and returns 0, less than `len = 2`, and no `send` has failed. -/
theorem send_all_zero_counterexample :
    send_all 4 [7, 8] (initial 3 [⟨0, 0⟩]) =
      Run.done (0, { initial 3 [] with
        trace := [Event.call_send_all 4 [7, 8], Event.send 4 [7, 8] ⟨0, 0⟩] }) ∧
    (0 : Int) < ([7, 8] : List Byte).length ∧ (0 : Int) ≠ -1 := by
  decide

/-! ### C2, C1, C10: broadcast, relay and the lock -/

theorem attempts_append (a b : List Event) : attempts (a ++ b) = attempts a ++ attempts b := by
  induction a with
  | nil => simp [attempts]
  | cons e es ih => cases e <;> simp [attempts, ih]

theorem attempts_sends (fd : Int) (buf : List Byte) (sends : List Event)
    (h : ∀ e ∈ sends, ∃ k r0, e = Event.send fd (buf.drop k) r0) : attempts sends = [] := by
  induction sends with
  | nil => rfl
  | cons e es ih =>
    obtain ⟨k, r0, he⟩ := h e (List.mem_cons_self _ _)
    subst he
    simpa [attempts] using ih (fun e1 h1 => h e1 (List.mem_cons_of_mem _ h1))

theorem drop_suffix (buf : List Byte) (k : Nat) :
    buf.drop k = buf.drop (buf.length - (buf.drop k).length) := by
  by_cases h : k ≤ buf.length
  · have : buf.length - (buf.length - k) = k := by omega
    simp [this]
  · have h1 : buf.length - k = 0 := by omega
    rw [List.drop_of_length_le (by omega)]
    simp

theorem fanout_event_call (cl : List Int) (buf : List Byte) (fd : Int) (h : fd ∈ cl) :
    fanout_event cl buf (Event.call_send_all fd buf) = true := by
  simp [fanout_event, h]

theorem fanout_event_send (cl : List Int) (buf : List Byte) (fd : Int) (k : Nat) (r0 : SysRet)
    (h : fd ∈ cl) : fanout_event cl buf (Event.send fd (buf.drop k) r0) = true := by
  simp only [fanout_event, Bool.and_eq_true, decide_eq_true_eq]
  exact ⟨h, drop_suffix buf k⟩

theorem fanout_event_mono (cl : List Int) (buf : List Byte) (fd : Int) (e : Event)
    (h : fanout_event cl buf e = true) : fanout_event (fd :: cl) buf e = true := by
  cases e with
  | call_send_all fd1 b =>
    simp only [fanout_event, Bool.and_eq_true, decide_eq_true_eq, List.mem_cons] at h ⊢
    exact ⟨Or.inr h.1, h.2⟩
  | send fd1 data r =>
    simp only [fanout_event, Bool.and_eq_true, decide_eq_true_eq, List.mem_cons] at h ⊢
    exact ⟨Or.inr h.1, h.2⟩
  | _ => exact absurd h (by simp [fanout_event])

theorem sends_under_lock_fanout (cl : List Int) (buf : List Byte) (tail : List Event) :
    ∀ ev : List Event, (∀ e ∈ ev, fanout_event cl buf e = true) →
      sends_under_lock true (ev ++ tail) = sends_under_lock true tail := by
  intro ev
  induction ev with
  | nil => intro _; rfl
  | cons e es ih =>
    intro h
    have he := h e (List.mem_cons_self _ _)
    have ih1 := ih (fun e1 h1 => h e1 (List.mem_cons_of_mem _ h1))
    cases e with
    | call_send_all fd1 b => simpa [sends_under_lock] using ih1
    | send fd1 data r => simpa [sends_under_lock] using ih1
    | _ => exact absurd he (by simp [fanout_event])

/-- What the range-for of `broadcast_to_all` does on any list of handles
when it finishes. -/
theorem broadcast_loop_spec (buf : List Byte) :
    ∀ (cl : List Int) (w w1 : World), broadcast_loop buf cl w = Run.done w1 →
      w1.g_clients = w.g_clients ∧ w1.g_running = w.g_running ∧
      w1.g_listen_fd = w.g_listen_fd ∧
      ∃ ev, w1.trace = w.trace ++ ev ∧ attempts ev = cl.map (fun fd => (fd, buf)) ∧
        ∀ e ∈ ev, fanout_event cl buf e = true := by
  intro cl
  induction cl with
  | nil =>
    intro w w1 h
    simp only [broadcast_loop, Run.done.injEq] at h
    subst h
    exact ⟨rfl, rfl, rfl, [], by simp, rfl, by simp⟩
  | cons cfd rest ih =>
    intro w w1 h
    unfold broadcast_loop at h
    split at h
    · cases h
    · cases h
    · rename_i r w2 heq
      obtain ⟨hc, hr, hl, _, _, sends, ht, hs⟩ := send_all_frame cfd buf w r w2 heq
      obtain ⟨hc1, hr1, hl1, ev, ht1, ha, hev⟩ := ih w2 w1 h
      refine ⟨hc1.trans hc, hr1.trans hr, hl1.trans hl,
        Event.call_send_all cfd buf :: sends ++ ev, by simp [ht1, ht], ?_, ?_⟩
      · simp [attempts, attempts_append, attempts_sends cfd buf sends hs, ha]
      · intro e he
        simp only [List.cons_append, List.mem_cons, List.mem_append] at he
        rcases he with he | he | he
        · subst he
          exact fanout_event_call _ buf cfd (List.mem_cons_self _ _)
        · obtain ⟨k, r0, h0⟩ := hs e he
          subst h0
          exact fanout_event_send _ buf cfd k r0 (List.mem_cons_self _ _)
        · exact fanout_event_mono rest buf cfd e (hev e he)

/-- A range-for that `SIGPIPE` ends has touched the script and the trace only. -/
theorem broadcast_loop_killed_frame (buf : List Byte) :
    ∀ (cl : List Int) (w w1 : World), broadcast_loop buf cl w = Run.killed w1 →
      w1.g_clients = w.g_clients ∧ w1.g_running = w.g_running := by
  intro cl
  induction cl with
  | nil =>
    intro w w1 h
    simp only [broadcast_loop] at h
    cases h
  | cons cfd rest ih =>
    intro w w1 h
    unfold broadcast_loop at h
    split at h
    · cases h
    · rename_i w2 heq
      simp only [Run.killed.injEq] at h
      subst h
      exact ⟨(send_all_killed_frame cfd buf w w2 heq).1,
        (send_all_killed_frame cfd buf w w2 heq).2.1⟩
    · rename_i r w2 heq
      obtain ⟨hc, hr, _⟩ := send_all_frame cfd buf w r w2 heq
      obtain ⟨hc1, hr1⟩ := ih w2 w1 h
      exact ⟨hc1.trans hc, hr1.trans hr⟩

/-- The range-for of `broadcast_to_all` does not wait for ever once the
script holds `len` results other than `EINTR` for each handle, and it
finishes when none of them raises `SIGPIPE`. -/
theorem broadcast_loop_returns (buf : List Byte) :
    ∀ (cl : List Int) (w : World),
      cl.length * buf.length ≤ w.sendq.countP (fun r => !isEintr r) →
      (broadcast_loop buf cl w).isBlocked = false ∧
      (pipe_free w.sendq = true → (broadcast_loop buf cl w).isDone = true) := by
  intro cl
  induction cl with
  | nil => intro w _; exact ⟨rfl, fun _ => rfl⟩
  | cons cfd rest ih =>
    intro w h
    unfold broadcast_loop
    simp only [List.length_cons, Nat.add_mul, Nat.one_mul] at h
    have h1 := send_all_returns cfd buf w (by omega)
    split
    · rename_i heq
      rw [heq] at h1
      exact absurd h1.1 (by simp [Run.isBlocked])
    · rename_i w2 heq
      rw [heq] at h1
      exact ⟨rfl, fun hpf => h1.2 hpf⟩
    · rename_i r w2 heq
      obtain ⟨_, _, _, h2, h3, _⟩ := send_all_frame cfd buf w r w2 heq
      have := ih w2 (by omega)
      exact ⟨this.1, fun hpf => this.2 (h3 hpf)⟩

theorem count_map_pair (cl : List Int) (buf : List Byte) (cfd : Int) :
    (cl.map (fun fd => (fd, buf))).count (cfd, buf) = cl.count cfd := by
  induction cl with
  | nil => rfl
  | cons x rest ih =>
    simp only [List.map_cons, List.count_cons, ih]
    by_cases hx : x = cfd
    · subst hx
      simp
    · have : ¬ ((x, buf) = (cfd, buf)) := fun h => hx (Prod.mk.inj h).1
      simp [hx, this]

/-- The events of a call of `broadcast_to_all` that returns. -/
theorem broadcast_to_all_events (buf : List Byte) (w w1 : World)
    (h : broadcast_to_all buf w = Run.done w1) :
    w1.g_clients = w.g_clients ∧ w1.g_running = w.g_running ∧
    ∃ ev, w1.trace = w.trace ++ Event.lock :: ev ++ [Event.unlock] ∧
      attempts ev = w.g_clients.map (fun fd => (fd, buf)) ∧
      ∀ e ∈ ev, fanout_event w.g_clients buf e = true := by
  unfold broadcast_to_all at h
  split at h
  · cases h
  · cases h
  · rename_i w2 heq
    simp only [Run.done.injEq] at h
    subst h
    obtain ⟨hc, hr, _, ev, ht, ha, hev⟩ := broadcast_loop_spec buf _ _ _ heq
    exact ⟨by simpa [World.emit] using hc, by simpa [World.emit] using hr, ev,
      by simp [World.emit, ht], ha, hev⟩

/-- A call of `broadcast_to_all` that `SIGPIPE` ends has touched the script and
the trace only. -/
theorem broadcast_to_all_killed_frame (buf : List Byte) (w w1 : World)
    (h : broadcast_to_all buf w = Run.killed w1) :
    w1.g_clients = w.g_clients ∧ w1.g_running = w.g_running := by
  unfold broadcast_to_all at h
  split at h
  · cases h
  · rename_i w2 heq
    simp only [Run.killed.injEq] at h
    subst h
    have := broadcast_loop_killed_frame buf _ _ _ heq
    exact ⟨by simpa [World.emit] using this.1, by simpa [World.emit] using this.2⟩
  · cases h

/-- A call of `broadcast_to_all` does not wait for ever once the script holds
`len` results other than `EINTR` per registered handle, and it returns when
none of them raises `SIGPIPE`. -/
theorem broadcast_to_all_returns (buf : List Byte) (w : World)
    (h : w.g_clients.length * buf.length ≤ w.sendq.countP (fun r => !isEintr r)) :
    (broadcast_to_all buf w).isBlocked = false ∧
    (pipe_free w.sendq = true → (broadcast_to_all buf w).isDone = true) := by
  have h1 := broadcast_loop_returns buf w.g_clients (w.emit Event.lock)
    (by simpa [World.emit] using h)
  unfold broadcast_to_all
  split
  · rename_i heq
    rw [heq] at h1
    exact absurd h1.1 (by simp [Run.isBlocked])
  · rename_i w2 heq
    rw [heq] at h1
    exact ⟨rfl, fun hpf => h1.2 (by simpa [World.emit] using hpf)⟩
  · exact ⟨rfl, fun _ => rfl⟩

/-- C2, as amended. `broadcast_to_all` does not wait for ever once the script
holds `len` results other than `EINTR` per registry entry, and it returns,
with no error value, when none of them is the failure that raises
`SIGPIPE`, whatever else the results are (other failures included).
Whenever it returns, `send_all` has been called with the unmodified chunk
exactly once per entry of the registry, in registry order, so as many
times on a handle as the registry holds it; every `send` went to a
registered handle with a suffix of the chunk; and a handle that is
registered, the sender's included, is among the recipients. -/
theorem broadcast_to_all_attempts (buf : List Byte) (w : World) :
    (w.g_clients.length * buf.length ≤ w.sendq.countP (fun r => !isEintr r) →
      (broadcast_to_all buf w).isBlocked = false ∧
      (pipe_free w.sendq = true → (broadcast_to_all buf w).isDone = true)) ∧
    ∀ w1, broadcast_to_all buf w = Run.done w1 →
      w1.g_clients = w.g_clients ∧
      ∃ ev, w1.trace = w.trace ++ Event.lock :: ev ++ [Event.unlock] ∧
        attempts ev = w.g_clients.map (fun fd => (fd, buf)) ∧
        (∀ e ∈ ev, fanout_event w.g_clients buf e = true) ∧
        (∀ cfd, (attempts ev).count (cfd, buf) = w.g_clients.count cfd) ∧
        ∀ cfd, cfd ∈ w.g_clients → (cfd, buf) ∈ attempts ev := by
  refine ⟨broadcast_to_all_returns buf w, ?_⟩
  intro w1 h
  obtain ⟨hc, _, ev, ht, ha, hev⟩ := broadcast_to_all_events buf w w1 h
  refine ⟨hc, ev, ht, ha, hev, ?_, ?_⟩
  · intro cfd
    rw [ha]
    exact count_map_pair w.g_clients buf cfd
  · intro cfd hm
    rw [ha]
    exact List.mem_map.mpr ⟨cfd, hm, rfl⟩

/-- C2 on a registry of three handles where the `send` to the first one
fails with `ECONNRESET`: the broadcast returns and the two handles after
it are still served, in order. -/
theorem broadcast_to_all_attempts_witness :
    (broadcast_to_all [7, 8]
      { initial 3 [⟨-1, 104⟩, ⟨2, 0⟩, ⟨1, 0⟩, ⟨1, 0⟩, ⟨0, 0⟩, ⟨0, 0⟩] with
        g_clients := [4, 5, 6] }).isDone = true ∧
    broadcast_to_all [7, 8]
      { initial 3 [⟨-1, 104⟩, ⟨2, 0⟩, ⟨1, 0⟩, ⟨1, 0⟩, ⟨0, 0⟩, ⟨0, 0⟩] with
        g_clients := [4, 5, 6] } =
      Run.done { initial 3 [⟨0, 0⟩, ⟨0, 0⟩] with
        g_clients := [4, 5, 6],
        trace := [Event.lock,
          Event.call_send_all 4 [7, 8], Event.send 4 [7, 8] ⟨-1, 104⟩,
          Event.call_send_all 5 [7, 8], Event.send 5 [7, 8] ⟨2, 0⟩,
          Event.call_send_all 6 [7, 8], Event.send 6 [7, 8] ⟨1, 0⟩, Event.send 6 [8] ⟨1, 0⟩,
          Event.unlock] } ∧
    ∀ w1, broadcast_to_all [7, 8]
        { initial 3 [⟨-1, 104⟩, ⟨2, 0⟩, ⟨1, 0⟩, ⟨1, 0⟩, ⟨0, 0⟩, ⟨0, 0⟩] with
          g_clients := [4, 5, 6] } = Run.done w1 → w1.g_clients = [4, 5, 6] := by
  have hrun : broadcast_to_all [7, 8]
      { initial 3 [⟨-1, 104⟩, ⟨2, 0⟩, ⟨1, 0⟩, ⟨1, 0⟩, ⟨0, 0⟩, ⟨0, 0⟩] with
        g_clients := [4, 5, 6] } =
      Run.done { initial 3 [⟨0, 0⟩, ⟨0, 0⟩] with
        g_clients := [4, 5, 6],
        trace := [Event.lock,
          Event.call_send_all 4 [7, 8], Event.send 4 [7, 8] ⟨-1, 104⟩,
          Event.call_send_all 5 [7, 8], Event.send 5 [7, 8] ⟨2, 0⟩,
          Event.call_send_all 6 [7, 8], Event.send 6 [7, 8] ⟨1, 0⟩, Event.send 6 [8] ⟨1, 0⟩,
          Event.unlock] } := by decide
  exact ⟨((broadcast_to_all_attempts [7, 8] _).1 (by decide)).2 (by decide), hrun,
    fun w1 h => ((broadcast_to_all_attempts [7, 8] _).2 w1 h).1⟩

/-- C2 as stated fails, in two ways. On the registry `[4, 5]` the `send` to
handle 4 fails with `EPIPE`: `SIGPIPE` terminates the process inside that
call, with the lock held, and handle 5 is never attempted. On the registry
`[5, 5]` the chunk is sent to handle 5 twice. -/
theorem broadcast_sigpipe_counterexample :
    broadcast_to_all [7] { initial 3 [⟨-1, 32⟩, ⟨1, 0⟩] with g_clients := [4, 5] } =
      Run.killed { initial 3 [⟨1, 0⟩] with
        g_clients := [4, 5],
        trace := [Event.lock, Event.call_send_all 4 [7], Event.send 4 [7] ⟨-1, 32⟩] } ∧
    attempts [Event.lock, Event.call_send_all 4 [7], Event.send 4 [7] ⟨-1, 32⟩] = [(4, [7])] ∧
    broadcast_to_all [7] { initial 3 [⟨1, 0⟩, ⟨1, 0⟩] with g_clients := [5, 5] } =
      Run.done { initial 3 [] with
        g_clients := [5, 5],
        trace := [Event.lock, Event.call_send_all 5 [7], Event.send 5 [7] ⟨1, 0⟩,
          Event.call_send_all 5 [7], Event.send 5 [7] ⟨1, 0⟩, Event.unlock] } ∧
    attempts [Event.lock, Event.call_send_all 5 [7], Event.send 5 [7] ⟨1, 0⟩,
      Event.call_send_all 5 [7], Event.send 5 [7] ⟨1, 0⟩, Event.unlock] =
      [(5, [7]), (5, [7])] := by
  decide

/-- C1. The relay step takes exactly one of three branches. With `broadcast`
set (whether or not `echo` is set) it is the call `broadcast_to_all(chunk)`
and nothing more: `send_all` is called once per registry entry, no extra
call for the sender. Otherwise, with `echo` set, it is the call
`echo_to_one(cfd, chunk)`: one call of `send_all`, on the sending handle,
and every `send` goes to that handle. Otherwise the world is left as it
was: nothing is sent. The step does not wait for ever once the script holds
`len` results other than `EINTR` per recipient, and it returns when none of
them raises `SIGPIPE`. -/
theorem relay_priority (opts : ServerOptions) (cfd : Int) (chunk : List Byte) (w : World) :
    (opts.broadcast = true →
      relay opts cfd chunk w = broadcast_to_all chunk w ∧
      ∀ w1, relay opts cfd chunk w = Run.done w1 →
        ∃ ev, w1.trace = w.trace ++ ev ∧
          attempts ev = w.g_clients.map (fun fd => (fd, chunk))) ∧
    (opts.broadcast = false → opts.echo = true →
      relay opts cfd chunk w = echo_to_one cfd chunk w ∧
      ∀ w1, relay opts cfd chunk w = Run.done w1 →
        ∃ ev, w1.trace = w.trace ++ ev ∧ attempts ev = [(cfd, chunk)] ∧
          ∀ e ∈ ev, fanout_event [cfd] chunk e = true) ∧
    (opts.broadcast = false → opts.echo = false → relay opts cfd chunk w = Run.done w) ∧
    ((w.g_clients.length + 1) * chunk.length ≤ w.sendq.countP (fun r => !isEintr r) →
      (relay opts cfd chunk w).isBlocked = false ∧
      (pipe_free w.sendq = true → (relay opts cfd chunk w).isDone = true)) := by
  refine ⟨?_, ?_, ?_, ?_⟩
  · intro hb
    have heq : relay opts cfd chunk w = broadcast_to_all chunk w := by simp [relay, hb]
    refine ⟨heq, ?_⟩
    intro w1 h
    rw [heq] at h
    obtain ⟨_, _, ev, ht, ha, _⟩ := broadcast_to_all_events chunk w w1 h
    refine ⟨Event.lock :: ev ++ [Event.unlock], by simp [ht], ?_⟩
    simp [attempts, attempts_append, ha]
  · intro hb he
    have heq : relay opts cfd chunk w = echo_to_one cfd chunk w := by simp [relay, hb, he]
    refine ⟨heq, ?_⟩
    intro w1 h
    rw [heq] at h
    unfold echo_to_one at h
    split at h
    · cases h
    · cases h
    · rename_i r w2 hs
      simp only [Run.done.injEq] at h
      subst h
      obtain ⟨_, _, _, _, _, sends, ht, hall⟩ := send_all_frame cfd chunk w r w2 hs
      refine ⟨Event.call_send_all cfd chunk :: sends, ht, ?_, ?_⟩
      · simp [attempts, attempts_sends cfd chunk sends hall]
      · intro e hm
        rcases List.mem_cons.mp hm with h0 | h0
        · subst h0
          exact fanout_event_call _ chunk cfd (List.mem_singleton.mpr rfl)
        · obtain ⟨k, r0, h1⟩ := hall e h0
          subst h1
          exact fanout_event_send _ chunk cfd k r0 (List.mem_singleton.mpr rfl)
  · intro hb he
    simp [relay, hb, he]
  · intro h
    simp only [Nat.add_mul, Nat.one_mul] at h
    unfold relay
    split
    · exact broadcast_to_all_returns chunk w (by omega)
    · split
      · have h1 := send_all_returns cfd chunk w (by omega)
        unfold echo_to_one
        split
        · rename_i heq
          rw [heq] at h1
          exact absurd h1.1 (by simp [Run.isBlocked])
        · rename_i w2 heq
          rw [heq] at h1
          exact ⟨rfl, fun hpf => h1.2 hpf⟩
        · exact ⟨rfl, fun _ => rfl⟩
      · exact ⟨rfl, fun _ => rfl⟩

/-- C1 with both flags set and the sender registered between two peers: one
call of `send_all` per registered handle and none besides. -/
theorem relay_priority_witness :
    relay { echo := true, broadcast := true } 5 [7]
        { initial 3 [⟨1, 0⟩, ⟨1, 0⟩, ⟨1, 0⟩] with g_clients := [4, 5, 6] } =
      broadcast_to_all [7]
        { initial 3 [⟨1, 0⟩, ⟨1, 0⟩, ⟨1, 0⟩] with g_clients := [4, 5, 6] } ∧
    (relay { echo := true, broadcast := true } 5 [7]
        { initial 3 [⟨1, 0⟩, ⟨1, 0⟩, ⟨1, 0⟩] with g_clients := [4, 5, 6] }).bind
        (fun w1 => Run.done (attempts w1.trace)) = Run.done [(4, [7]), (5, [7]), (6, [7])] ∧
    relay { echo := true, broadcast := false } 5 [7]
        { initial 3 [⟨1, 0⟩, ⟨1, 0⟩, ⟨1, 0⟩] with g_clients := [4, 5, 6] } =
      echo_to_one 5 [7]
        { initial 3 [⟨1, 0⟩, ⟨1, 0⟩, ⟨1, 0⟩] with g_clients := [4, 5, 6] } ∧
    relay { echo := false, broadcast := false } 5 [7]
        { initial 3 [⟨1, 0⟩, ⟨1, 0⟩, ⟨1, 0⟩] with g_clients := [4, 5, 6] } =
      Run.done { initial 3 [⟨1, 0⟩, ⟨1, 0⟩, ⟨1, 0⟩] with g_clients := [4, 5, 6] } ∧
    (relay { echo := true, broadcast := true } 5 [7]
        { initial 3 [⟨1, 0⟩, ⟨1, 0⟩, ⟨1, 0⟩, ⟨1, 0⟩] with g_clients := [4, 5, 6] }).isDone =
      true :=
  ⟨((relay_priority { echo := true, broadcast := true } 5 [7] _).1 rfl).1, by decide,
    ((relay_priority { echo := true, broadcast := false } 5 [7] _).2.1 rfl rfl).1,
    (relay_priority { echo := false, broadcast := false } 5 [7] _).2.2.1 rfl rfl,
    ((relay_priority { echo := true, broadcast := true } 5 [7] _).2.2.2 (by decide)).2
      (by decide)⟩

theorem close_all_spec : ∀ (cl : List Int) (w : World),
    close_all cl w = { w with trace := w.trace ++ close_events cl } := by
  intro cl
  induction cl with
  | nil => intro w; simp [close_all, close_events]
  | cons fd rest ih =>
    intro w
    simp [close_all, close_events, ih, World.emit]

theorem lock_free_io_close_events (tail : List Event) : ∀ cl : List Int,
    lock_free_io true (close_events cl ++ tail) = lock_free_io true tail := by
  intro cl
  induction cl with
  | nil => rfl
  | cons fd rest ih => simpa [close_events, lock_free_io, blocking] using ih

theorem shutdown_clients_spec (w : World) :
    shutdown_clients w =
      { w with g_clients := [],
               trace := w.trace ++ Event.lock :: close_events w.g_clients ++ [Event.unlock] } := by
  simp [shutdown_clients, close_all_spec, World.emit]

/-- C10, as amended. In `broadcast_to_all` the lock is taken before the
first `send` and released after the last one: the events of a broadcast are
`lock`, then calls of `send_all` and `send` only, then `unlock`, so every
`send` to a peer is made while the lock is held. The add and remove paths
take and release the lock with no system call in between. The termination
path calls `shutdown` and `close` on each handle while it holds the lock
and makes no blocking call (`send`, `recv`, `accept`) under it. -/
theorem lock_held_across_sends (buf : List Byte) (cfd : Int) (w : World) :
    (∀ w1, broadcast_to_all buf w = Run.done w1 →
      ∃ ev, w1.trace = w.trace ++ Event.lock :: ev ++ [Event.unlock] ∧
        (∀ e ∈ ev, fanout_event w.g_clients buf e = true) ∧
        sends_under_lock false (Event.lock :: ev ++ [Event.unlock]) = true) ∧
    (push_client cfd w).trace = w.trace ++ [Event.lock, Event.unlock] ∧
    (remove_client_fd cfd w).trace = w.trace ++ [Event.lock, Event.unlock] ∧
    (shutdown_clients w).trace =
      w.trace ++ Event.lock :: close_events w.g_clients ++ [Event.unlock] ∧
    lock_free_io false (Event.lock :: close_events w.g_clients ++ [Event.unlock]) = true := by
  refine ⟨?_, by simp [push_client, World.emit], by simp [remove_client_fd, World.emit],
    by simp [shutdown_clients_spec], ?_⟩
  · intro w1 h
    obtain ⟨_, _, ev, ht, _, hev⟩ := broadcast_to_all_events buf w w1 h
    refine ⟨ev, ht, hev, ?_⟩
    show sends_under_lock true (ev ++ [Event.unlock]) = true
    rw [sends_under_lock_fanout w.g_clients buf [Event.unlock] ev hev]
    rfl
  · show lock_free_io true (close_events w.g_clients ++ [Event.unlock]) = true
    rw [lock_free_io_close_events]
    rfl

/-- C10 on a registry of two handles: both are sent to under the lock. -/
theorem lock_held_across_sends_witness :
    broadcast_to_all [7] { initial 3 [⟨1, 0⟩, ⟨1, 0⟩] with g_clients := [4, 5] } =
      Run.done { initial 3 [] with
        g_clients := [4, 5],
        trace := [Event.lock, Event.call_send_all 4 [7], Event.send 4 [7] ⟨1, 0⟩,
          Event.call_send_all 5 [7], Event.send 5 [7] ⟨1, 0⟩, Event.unlock] } ∧
    sends_under_lock false [Event.lock, Event.call_send_all 4 [7], Event.send 4 [7] ⟨1, 0⟩,
      Event.call_send_all 5 [7], Event.send 5 [7] ⟨1, 0⟩, Event.unlock] = true := by
  have hrun : broadcast_to_all [7] { initial 3 [⟨1, 0⟩, ⟨1, 0⟩] with g_clients := [4, 5] } =
      Run.done { initial 3 [] with
        g_clients := [4, 5],
        trace := [Event.lock, Event.call_send_all 4 [7], Event.send 4 [7] ⟨1, 0⟩,
          Event.call_send_all 5 [7], Event.send 5 [7] ⟨1, 0⟩, Event.unlock] } := by decide
  refine ⟨hrun, ?_⟩
  obtain ⟨ev, ht, _, hu⟩ := (lock_held_across_sends [7] 0 _).1 _ hrun
  have hs : [Event.lock, Event.call_send_all 4 [7], Event.send 4 [7] ⟨1, 0⟩,
      Event.call_send_all 5 [7], Event.send 5 [7] ⟨1, 0⟩, Event.unlock] =
      Event.lock :: ev ++ [Event.unlock] := by
    simpa [initial] using ht
  rw [hs]
  exact hu

/-- C10 as stated fails: in a broadcast to one registered handle the `send`
is made between `lock` and `unlock`. -/
theorem broadcast_sends_under_lock_counterexample :
    broadcast_to_all [7] { initial 3 [⟨1, 0⟩] with g_clients := [4] } =
      Run.done { initial 3 [] with
        g_clients := [4],
        trace := [Event.lock, Event.call_send_all 4 [7], Event.send 4 [7] ⟨1, 0⟩,
          Event.unlock] } ∧
    lock_free_io false [Event.lock, Event.call_send_all 4 [7], Event.send 4 [7] ⟨1, 0⟩,
      Event.unlock] = false := by
  decide

/-! ### C7: the termination sequence -/

theorem signalled_true (w : World) : (signalled true w).g_running = false := by
  unfold signalled on_sigint
  simp only [if_true]
  split <;> rfl

/-- The relay step that returns touches the script and the trace only. -/
theorem relay_frame (opts : ServerOptions) (cfd : Int) (chunk : List Byte) (w w1 : World)
    (h : relay opts cfd chunk w = Run.done w1) :
    w1.g_clients = w.g_clients ∧ w1.g_running = w.g_running := by
  unfold relay at h
  split at h
  · exact ⟨(broadcast_to_all_events chunk w w1 h).1, (broadcast_to_all_events chunk w w1 h).2.1⟩
  · split at h
    · unfold echo_to_one at h
      split at h
      · cases h
      · cases h
      · rename_i r w2 hs
        simp only [Run.done.injEq] at h
        subst h
        exact ⟨(send_all_frame cfd chunk w r w2 hs).1, (send_all_frame cfd chunk w r w2 hs).2.1⟩
    · simp only [Run.done.injEq] at h
      subst h
      exact ⟨rfl, rfl⟩

/-- The relay step that `SIGPIPE` ends has touched the script and the trace only. -/
theorem relay_killed_frame (opts : ServerOptions) (cfd : Int) (chunk : List Byte)
    (w w1 : World) (h : relay opts cfd chunk w = Run.killed w1) :
    w1.g_clients = w.g_clients ∧ w1.g_running = w.g_running := by
  unfold relay at h
  split at h
  · exact broadcast_to_all_killed_frame chunk w w1 h
  · split at h
    · unfold echo_to_one at h
      split at h
      · cases h
      · rename_i w2 hs
        simp only [Run.killed.injEq] at h
        subst h
        exact ⟨(send_all_killed_frame cfd chunk w w2 hs).1,
          (send_all_killed_frame cfd chunk w w2 hs).2.1⟩
      · cases h
    · cases h

theorem teardown_spec (cfd : Int) (w : World) :
    teardown cfd w =
      { w with g_clients := w.g_clients.erase cfd,
               trace := w.trace ++ [Event.shutdown cfd, Event.close cfd, Event.lock,
                 Event.unlock] } := by
  simp [teardown, remove_client_fd, World.emit]

/-- With the Running Flag false the session goes to teardown at the loop head. -/
theorem client_thread_stopped (opts : ServerOptions) (cfd : Int) (buf : List Byte)
    (rq : List CallEvent) (w : World) (h : w.g_running = false) :
    client_thread opts cfd buf rq w = Run.done (teardown cfd w) := by
  cases rq <;> simp [client_thread, client_loop, h]

/-- C9, as amended. For a `recv` made with the Running Flag true: the result
0 and a failure other than `EINTR` end the loop, and the session shuts down
and closes its socket, erases one entry of its handle from the registry and
returns, with no further `recv`. `EINTR` leads back to the loop head with
nothing relayed and no teardown of its own; there the flag is read again:
when no `SIGINT` was handled during the call it is still true and the
`recv` is made again, when `SIGINT` was handled the session goes to
teardown without a second `recv`. A positive result `n` hands the `n`
bytes received to the relay step and, when that step returns, leads back
to the loop head, where the session stays in the loop if the flag is still
true and goes to teardown if `SIGINT` was handled during the call. With the
flag false at the loop head the session goes to teardown without a `recv`.
Teardown is `shutdown`, `close`, then the removal under the lock, and the
handle is out of the registry after it when it was registered once. -/
theorem client_thread_transitions (opts : ServerOptions) (cfd : Int) (buf : List Byte)
    (ev : CallEvent) (rq : List CallEvent) (w : World) :
    (w.g_running = true → ev.ret.n = 0 →
      client_thread opts cfd buf (ev :: rq) w =
        Run.done (teardown cfd (((signalled ev.sigint w).emit (Event.recv cfd ev.ret)).emit
          (Event.cerr Msg.disconnected)))) ∧
    (w.g_running = true → ev.ret.n < 0 → ev.ret.errno = EINTR →
      client_thread opts cfd buf (ev :: rq) w =
        client_thread opts cfd buf rq ((signalled ev.sigint w).emit (Event.recv cfd ev.ret)) ∧
      (ev.sigint = false →
        ((signalled ev.sigint w).emit (Event.recv cfd ev.ret)).g_running = true) ∧
      (ev.sigint = true →
        client_thread opts cfd buf (ev :: rq) w =
          Run.done (teardown cfd ((signalled ev.sigint w).emit (Event.recv cfd ev.ret))))) ∧
    (w.g_running = true → ev.ret.n < 0 → ev.ret.errno ≠ EINTR →
      client_thread opts cfd buf (ev :: rq) w =
        Run.done (teardown cfd (((signalled ev.sigint w).emit (Event.recv cfd ev.ret)).emit
          (Event.cerr (Msg.recv_error ev.ret.errno))))) ∧
    (w.g_running = true → 0 < ev.ret.n → ev.data.length = ev.ret.n.toNat →
      client_thread opts cfd buf (ev :: rq) w =
        (relay opts cfd ev.data
          (((signalled ev.sigint w).emit (Event.recv cfd ev.ret)).emit
            (Event.cout ev.data))).bind
          (fun w3 => client_thread opts cfd (ev.data ++ buf.drop ev.data.length) rq w3) ∧
      ∀ w3, relay opts cfd ev.data
          (((signalled ev.sigint w).emit (Event.recv cfd ev.ret)).emit
            (Event.cout ev.data)) = Run.done w3 →
        (ev.sigint = false → w3.g_running = true) ∧
        (ev.sigint = true →
          client_thread opts cfd buf (ev :: rq) w = Run.done (teardown cfd w3))) ∧
    (w.g_running = false → client_thread opts cfd buf rq w = Run.done (teardown cfd w)) ∧
    (∀ w1 : World,
      (teardown cfd w1).trace =
        w1.trace ++ [Event.shutdown cfd, Event.close cfd, Event.lock, Event.unlock] ∧
      (teardown cfd w1).g_clients = w1.g_clients.erase cfd ∧
      (w1.g_clients.count cfd ≤ 1 → cfd ∉ (teardown cfd w1).g_clients)) := by
  refine ⟨?_, ?_, ?_, ?_, ?_, ?_⟩
  · intro hrun h0
    simp [client_thread, client_loop, hrun, client_iter, h0]
  · intro hrun hneg he
    have h0 : ev.ret.n ≠ 0 := by omega
    have heq : client_thread opts cfd buf (ev :: rq) w =
        client_thread opts cfd buf rq
          ((signalled ev.sigint w).emit (Event.recv cfd ev.ret)) := by
      simp [client_thread, client_loop, hrun, client_iter, h0, hneg, he]
    refine ⟨heq, ?_, ?_⟩
    · intro hs
      simp [hs, signalled, World.emit, hrun]
    · intro hs
      rw [heq]
      apply client_thread_stopped
      rw [hs]
      exact signalled_true w
  · intro hrun hneg he
    have h0 : ev.ret.n ≠ 0 := by omega
    simp [client_thread, client_loop, hrun, client_iter, h0, hneg, he]
  · intro hrun hpos hlen
    have h0 : ev.ret.n ≠ 0 := by omega
    have hneg : ¬ ev.ret.n < 0 := by omega
    have hchunk : (ev.data ++ buf.drop ev.data.length).take ev.ret.n.toNat = ev.data := by
      rw [← hlen]
      simp
    have heq : client_thread opts cfd buf (ev :: rq) w =
        (relay opts cfd ev.data
          (((signalled ev.sigint w).emit (Event.recv cfd ev.ret)).emit
            (Event.cout ev.data))).bind
          (fun w3 => client_thread opts cfd (ev.data ++ buf.drop ev.data.length) rq w3) := by
      simp only [client_thread, client_loop, hrun, if_true, client_iter, h0, hneg, if_false,
        hchunk]
      cases relay opts cfd ev.data
        (((signalled ev.sigint w).emit (Event.recv cfd ev.ret)).emit (Event.cout ev.data)) <;>
        rfl
    refine ⟨heq, ?_⟩
    intro w3 hrel
    have hfr := (relay_frame _ _ _ _ _ hrel).2
    constructor
    · intro hs
      rw [hfr]
      simp [hs, signalled, World.emit, hrun]
    · intro hs
      rw [heq, hrel]
      show client_thread opts cfd (ev.data ++ buf.drop ev.data.length) rq w3 = _
      apply client_thread_stopped
      rw [hfr, hs]
      exact signalled_true w
  · intro hstop
    exact client_thread_stopped opts cfd buf rq w hstop
  · intro w1
    rw [teardown_spec]
    refine ⟨rfl, rfl, ?_⟩
    intro hc
    show cfd ∉ w1.g_clients.erase cfd
    rw [← List.count_eq_zero, List.count_erase_self]
    omega

/-- C9 on a session in echo mode: a chunk of two bytes is echoed, an
interrupt is retried, then the peer disconnects and the session is torn
down. -/
theorem client_thread_transitions_witness :
    client_thread { echo := true } 4 [] [⟨false, ⟨2, 0⟩, [7, 8]⟩, ⟨false, ⟨-1, 4⟩, []⟩,
        ⟨false, ⟨0, 0⟩, []⟩] { initial 3 [⟨2, 0⟩] with g_clients := [4] } =
      Run.done { initial 3 [] with
        trace := [Event.recv 4 ⟨2, 0⟩, Event.cout [7, 8], Event.call_send_all 4 [7, 8],
          Event.send 4 [7, 8] ⟨2, 0⟩, Event.recv 4 ⟨-1, 4⟩, Event.recv 4 ⟨0, 0⟩,
          Event.cerr Msg.disconnected, Event.shutdown 4, Event.close 4, Event.lock,
          Event.unlock] } ∧
    client_thread { echo := true } 4 [] [⟨false, ⟨-1, 4⟩, []⟩, ⟨false, ⟨0, 0⟩, []⟩]
        { initial 3 [] with g_clients := [4] } =
      client_thread { echo := true } 4 [] [⟨false, ⟨0, 0⟩, []⟩]
        ((signalled false { initial 3 [] with g_clients := [4] }).emit
          (Event.recv 4 ⟨-1, 4⟩)) ∧
    ((signalled false { initial 3 [] with g_clients := [4] }).emit
      (Event.recv 4 ⟨-1, 4⟩)).g_running = true ∧
    client_thread { echo := true } 4 [] [⟨false, ⟨0, 0⟩, []⟩]
        { initial 3 [] with g_clients := [4] } =
      Run.done (teardown 4 (((signalled false { initial 3 [] with g_clients := [4] }).emit
        (Event.recv 4 ⟨0, 0⟩)).emit (Event.cerr Msg.disconnected))) :=
  ⟨by decide,
    ((client_thread_transitions { echo := true } 4 [] ⟨false, ⟨-1, 4⟩, []⟩
      [⟨false, ⟨0, 0⟩, []⟩] { initial 3 [] with g_clients := [4] }).2.1 rfl (by decide) rfl).1,
    ((client_thread_transitions { echo := true } 4 [] ⟨false, ⟨-1, 4⟩, []⟩
      [⟨false, ⟨0, 0⟩, []⟩] { initial 3 [] with g_clients := [4] }).2.1 rfl (by decide)
      rfl).2.1 rfl,
    (client_thread_transitions { echo := true } 4 [] ⟨false, ⟨0, 0⟩, []⟩ []
      { initial 3 [] with g_clients := [4] }).1 rfl rfl⟩

/-- C9 as stated fails. A `recv` made with the Running Flag true returns
`EINTR` while `SIGINT` is handled: the receive is not retried, although
the script holds a further result, and the session is torn down. A `recv`
made with the flag true returns 2 bytes while `SIGINT` is handled: the
bytes are echoed and the session does not stay in the loop but is torn
down. -/
theorem client_thread_sigint_counterexample :
    client_thread { echo := true } 4 [] [⟨true, ⟨-1, 4⟩, []⟩, ⟨false, ⟨2, 0⟩, [7, 8]⟩]
        { initial 3 [⟨2, 0⟩] with g_clients := [4] } =
      Run.done { initial 3 [⟨2, 0⟩] with
        g_running := false,
        trace := [Event.close 3, Event.recv 4 ⟨-1, 4⟩, Event.shutdown 4, Event.close 4,
          Event.lock, Event.unlock] } ∧
    client_thread { echo := true } 4 [] [⟨true, ⟨2, 0⟩, [7, 8]⟩, ⟨false, ⟨1, 0⟩, [9]⟩]
        { initial 3 [⟨2, 0⟩] with g_clients := [4] } =
      Run.done { initial 3 [] with
        g_running := false,
        trace := [Event.close 3, Event.recv 4 ⟨2, 0⟩, Event.cout [7, 8],
          Event.call_send_all 4 [7, 8], Event.send 4 [7, 8] ⟨2, 0⟩, Event.shutdown 4,
          Event.close 4, Event.lock, Event.unlock] } := by
  decide

/-! ### C5 and C4: the registry -/

/-- C5, as amended. `remove_client_fd` leaves the registry as it is when the
handle is absent, and a second removal of the same handle changes nothing
exactly when the registry held the handle at most once. -/
theorem remove_client_fd_idempotent (fd : Int) (w : World) :
    (fd ∉ w.g_clients → (remove_client_fd fd w).g_clients = w.g_clients) ∧
    ((remove_client_fd fd (remove_client_fd fd w)).g_clients =
        (remove_client_fd fd w).g_clients ↔ w.g_clients.count fd ≤ 1) := by
  constructor
  · intro h
    show w.g_clients.erase fd = w.g_clients
    exact List.erase_of_not_mem h
  · show (w.g_clients.erase fd).erase fd = w.g_clients.erase fd ↔ w.g_clients.count fd ≤ 1
    rw [List.erase_eq_self_iff, ← List.count_eq_zero, List.count_erase_self]
    omega

/-- C5 on a registry without the handle and on one that holds it once. -/
theorem remove_client_fd_idempotent_witness :
    (remove_client_fd 6 { initial 3 [] with g_clients := [4, 5] }).g_clients = [4, 5] ∧
    (remove_client_fd 5 (remove_client_fd 5 { initial 3 [] with g_clients := [4, 5] })).g_clients =
      (remove_client_fd 5 { initial 3 [] with g_clients := [4, 5] }).g_clients :=
  ⟨(remove_client_fd_idempotent 6 { initial 3 [] with g_clients := [4, 5] }).1 (by decide),
    (remove_client_fd_idempotent 5 { initial 3 [] with g_clients := [4, 5] }).2.mpr (by decide)⟩

/-- C5 as stated fails: on a registry that holds handle 5 twice, one removal
leaves `[5]` and a second one leaves the empty registry. -/
theorem remove_client_fd_twice_counterexample :
    (remove_client_fd 5 { initial 3 [] with g_clients := [5, 5] }).g_clients = [5] ∧
    (remove_client_fd 5 (remove_client_fd 5 { initial 3 [] with g_clients := [5, 5] })).g_clients
      = [] := by
  decide

theorem apply_ops_append : ∀ (a b : List RegOp) (w : World),
    apply_ops (a ++ b) w = apply_ops b (apply_ops a w) := by
  intro a
  induction a with
  | nil => intro b w; rfl
  | cons op rest ih =>
    intro b w
    cases op <;> simp [apply_ops, ih]

theorem fresh_adds_append : ∀ (a b : List RegOp) (w : World),
    fresh_adds (a ++ b) w = true → fresh_adds a w = true := by
  intro a
  induction a with
  | nil => intro b w _; rfl
  | cons op rest ih =>
    intro b w h
    cases op with
    | add fd =>
      simp only [List.cons_append, fresh_adds, Bool.and_eq_true] at h ⊢
      exact ⟨h.1, ih b _ h.2⟩
    | remove fd =>
      simp only [List.cons_append, fresh_adds] at h ⊢
      exact ih b _ h

theorem apply_ops_nodup : ∀ (ops : List RegOp) (w : World),
    w.g_clients.Nodup → fresh_adds ops w = true → (apply_ops ops w).g_clients.Nodup := by
  intro ops
  induction ops with
  | nil => intro w hw _; exact hw
  | cons op rest ih =>
    intro w hw hf
    cases op with
    | add fd =>
      simp only [fresh_adds, Bool.and_eq_true, decide_eq_true_eq] at hf
      apply ih _ _ hf.2
      show (w.g_clients ++ [fd]).Nodup
      rw [← List.concat_eq_append]
      exact List.Nodup.concat hf.1 hw
    | remove fd =>
      simp only [fresh_adds] at hf
      apply ih _ _ hf
      show (w.g_clients.erase fd).Nodup
      exact hw.erase fd

/-- C4, as amended. Starting from the empty registry, in every sequence of
adds and removes in which no handle is added while it is registered, the
registry holds no handle twice at any point of the sequence, and right
after each remove of a handle that handle is not in the registry. -/
theorem registry_no_duplicates (listen_fd : Int) (sendq : List SysRet) (ops : List RegOp)
    (hf : fresh_adds ops (initial listen_fd sendq) = true) :
    (∀ pre post, ops = pre ++ post →
      (apply_ops pre (initial listen_fd sendq)).g_clients.Nodup) ∧
    ∀ pre fd post, ops = pre ++ RegOp.remove fd :: post →
      fd ∉ (apply_ops (pre ++ [RegOp.remove fd]) (initial listen_fd sendq)).g_clients := by
  constructor
  · intro pre post hops
    subst hops
    exact apply_ops_nodup pre _ List.nodup_nil (fresh_adds_append pre post _ hf)
  · intro pre fd post hops
    subst hops
    have hpre := apply_ops_nodup pre _ List.nodup_nil (fresh_adds_append pre _ _ hf)
    rw [apply_ops_append]
    show fd ∉ (apply_ops pre (initial listen_fd sendq)).g_clients.erase fd
    rw [hpre.mem_erase_iff]
    exact fun h => h.1 rfl

/-- C4 on a sequence that registers two handles, removes one, registers it
again and removes it again. -/
theorem registry_no_duplicates_witness :
    (apply_ops [RegOp.add 4, RegOp.add 5, RegOp.remove 4, RegOp.add 4]
      (initial 3 [])).g_clients.Nodup ∧
    (4 : Int) ∉ (apply_ops ([RegOp.add 4, RegOp.add 5] ++ [RegOp.remove 4])
      (initial 3 [])).g_clients :=
  ⟨(registry_no_duplicates 3 []
      [RegOp.add 4, RegOp.add 5, RegOp.remove 4, RegOp.add 4, RegOp.remove 4] (by decide)).1
      [RegOp.add 4, RegOp.add 5, RegOp.remove 4, RegOp.add 4] [RegOp.remove 4] rfl,
    (registry_no_duplicates 3 []
      [RegOp.add 4, RegOp.add 5, RegOp.remove 4, RegOp.add 4, RegOp.remove 4] (by decide)).2
      [RegOp.add 4, RegOp.add 5] 4 [RegOp.add 4, RegOp.remove 4] rfl⟩

/-- C4 as stated fails: two adds of handle 5 leave it twice in the registry,
and it is still there after a remove of 5 has completed. -/
theorem registry_duplicate_counterexample :
    (apply_ops [RegOp.add 5, RegOp.add 5] (initial 3 [])).g_clients = [5, 5] ∧
    ¬ (apply_ops [RegOp.add 5, RegOp.add 5] (initial 3 [])).g_clients.Nodup ∧
    (5 : Int) ∈ (apply_ops [RegOp.add 5, RegOp.add 5, RegOp.remove 5] (initial 3 [])).g_clients := by
  decide

/-! ### C8: the port argument -/

theorem takeWhile_dropWhile_of_run (f : Char → Bool) : ∀ (a b : List Char),
    (∀ c ∈ a, f c = true) → (∀ c, b.head? = some c → f c = false) →
    (a ++ b).takeWhile f = a ∧ (a ++ b).dropWhile f = b := by
  intro a
  induction a with
  | nil =>
    intro b _ hb
    cases b with
    | nil => simp
    | cons c rest =>
      have := hb c rfl
      simp [List.takeWhile, List.dropWhile, this]
  | cons x rest ih =>
    intro b ha hb
    have hx := ha x (List.mem_cons_self _ _)
    have := ih b (fun c hc => ha c (List.mem_cons_of_mem _ hc)) hb
    simp [List.takeWhile, List.dropWhile, hx, this.1, this.2]

theorem head_dropWhile_not (f : Char → Bool) (l : List Char) :
    ∀ c, (l.dropWhile f).head? = some c → f c = false := by
  intro c h
  have := List.head?_dropWhile_not f l
  rw [h] at this
  exact this

theorem isdigit_not_space (c : Char) (h : isdigit c = true) :
    isspace c = false ∧ c ≠ '-' ∧ c ≠ '+' := by
  simp only [isdigit, Bool.and_eq_true, decide_eq_true_eq] at h
  refine ⟨?_, ?_, ?_⟩
  · simp only [isspace, Bool.or_eq_false_iff, decide_eq_false_iff_not, Bool.and_eq_false_iff]
    omega
  · intro hc
    subst hc
    exact absurd h.1 (by decide)
  · intro hc
    subst hc
    exact absurd h.1 (by decide)

theorem stoi_digits_true_nonpos (cs : List Char) (v : Int) (h : stoi_digits true cs = some v) :
    v ≤ 0 := by
  unfold stoi_digits at h
  split at h
  · exact absurd h (by simp)
  · simp only [if_true] at h
    split at h
    · exact absurd h (by simp)
    · simp only [Option.some.injEq] at h
      omega

theorem stoi_digits_false_some (cs : List Char) (v : Int) (h : stoi_digits false cs = some v) :
    cs.takeWhile isdigit ≠ [] ∧ v = digits_value (cs.takeWhile isdigit) := by
  unfold stoi_digits at h
  split at h
  · exact absurd h (by simp)
  · rename_i hne
    simp only [Bool.false_eq_true, if_false] at h
    split at h
    · exact absurd h (by simp)
    · simp only [Option.some.injEq] at h
      exact ⟨by simpa [List.isEmpty_iff] using hne, h.symm⟩

theorem stoi_digits_of_run (digs rest : List Char) (hne : digs ≠ [])
    (hd : ∀ c ∈ digs, isdigit c = true) (hr : ∀ c, rest.head? = some c → isdigit c = false) :
    stoi_digits false (digs ++ rest) =
      if (2147483647 : Int) < digits_value digs then none else some (digits_value digs : Int) := by
  unfold stoi_digits
  rw [(takeWhile_dropWhile_of_run isdigit digs rest hd hr).1]
  have : digs.isEmpty = false := by
    cases digs with
    | nil => exact absurd rfl hne
    | cons _ _ => rfl
  simp [this]

theorem stoi_of_reads (s : String) (p : Nat) (h : reads_port s.toList p) :
    stoi s = if (2147483647 : Int) < p then none else some (p : Int) := by
  obtain ⟨ws, sign, digs, rest, hl, hws, hsign, hne, hd, hr, hp⟩ := h
  subst hp
  unfold stoi
  rcases hsign with hs | hs
  · subst hs
    cases digs with
    | nil => exact absurd rfl hne
    | cons d ds =>
      have hd0 := isdigit_not_space d (hd d (List.mem_cons_self _ _))
      have hdrop : s.toList.dropWhile isspace = d :: (ds ++ rest) := by
        rw [hl]
        simpa using (takeWhile_dropWhile_of_run isspace ws (d :: (ds ++ rest)) hws
          (by intro c hc; simp only [List.head?_cons, Option.some.injEq] at hc
              rw [← hc]; exact hd0.1)).2
      rw [hdrop]
      simp only [hd0.2.1, hd0.2.2, if_false]
      exact stoi_digits_of_run (d :: ds) rest hne hd hr
  · subst hs
    have hdrop : s.toList.dropWhile isspace = '+' :: (digs ++ rest) := by
      rw [hl]
      simpa using (takeWhile_dropWhile_of_run isspace ws ('+' :: (digs ++ rest)) hws
        (by intro c hc; simp only [List.head?_cons, Option.some.injEq] at hc
            rw [← hc]; decide)).2
    rw [hdrop]
    have h1 : ('+' : Char) ≠ '-' := by decide
    simp only [h1, if_false, if_true]
    exact stoi_digits_of_run digs rest hne hd hr

theorem reads_of_stoi (s : String) (v : Int) (h : stoi s = some v) (hv : 0 < v) :
    reads_port s.toList v.toNat := by
  unfold stoi at h
  split at h
  · exact absurd h (by simp)
  · rename_i c rest hdrop
    have hl : s.toList = s.toList.takeWhile isspace ++ c :: rest := by
      rw [← hdrop]
      exact (List.takeWhile_append_dropWhile isspace s.toList).symm
    have hws : ∀ x ∈ s.toList.takeWhile isspace, isspace x = true :=
      fun x hx => List.mem_takeWhile_imp hx
    by_cases hm : c = '-'
    · simp only [hm, if_true] at h
      have := stoi_digits_true_nonpos rest v h
      omega
    · simp only [hm, if_false] at h
      by_cases hp : c = '+'
      · simp only [hp, if_true] at h
        obtain ⟨hne, hval⟩ := stoi_digits_false_some rest v h
        refine ⟨s.toList.takeWhile isspace, ['+'], rest.takeWhile isdigit,
          rest.dropWhile isdigit, ?_, hws, Or.inr rfl, hne,
          fun x hx => List.mem_takeWhile_imp hx, head_dropWhile_not isdigit rest, ?_⟩
        · rw [List.append_assoc, List.append_assoc, List.takeWhile_append_dropWhile, ← hp]
          exact hl
        · rw [hval]
          simp
      · simp only [hp, if_false] at h
        obtain ⟨hne, hval⟩ := stoi_digits_false_some (c :: rest) v h
        refine ⟨s.toList.takeWhile isspace, [], (c :: rest).takeWhile isdigit,
          (c :: rest).dropWhile isdigit, ?_, hws, Or.inl rfl, hne,
          fun x hx => List.mem_takeWhile_imp hx, head_dropWhile_not isdigit (c :: rest), ?_⟩
        · rw [List.append_nil, List.append_assoc, List.takeWhile_append_dropWhile]
          exact hl
        · rw [hval]
          simp

theorem parse_port_iff (s : String) (p : Nat) :
    parse_port s = some p ↔ reads_port s.toList p ∧ 1 ≤ p ∧ p ≤ 65535 := by
  constructor
  · intro h
    unfold parse_port at h
    split at h
    · exact absurd h (by simp)
    · rename_i v hst
      split at h
      · exact absurd h (by simp)
      · rename_i hrange
        simp only [Option.some.injEq] at h
        have hpv : p = v.toNat := by omega
        rw [hpv]
        exact ⟨reads_of_stoi s v hst (by omega), by omega, by omega⟩
  · intro ⟨hr, h1, h2⟩
    unfold parse_port
    rw [stoi_of_reads s p hr]
    have : ¬ (2147483647 : Int) < p := by omega
    simp only [this, if_false]
    have h3 : ¬ ((p : Int) ≤ 0 ∨ (65535 : Int) < p) := by omega
    simp only [h3, if_false, Option.some.injEq]
    omega

theorem parse_port_of_digits (s : String) (hne : s.toList ≠ [])
    (hd : ∀ c ∈ s.toList, isdigit c = true) :
    parse_port s =
      if 1 ≤ digits_value s.toList ∧ digits_value s.toList ≤ 65535
      then some (digits_value s.toList) else none := by
  have hr : reads_port s.toList (digits_value s.toList) :=
    ⟨[], [], s.toList, [], by simp, by simp, Or.inl rfl, hne, hd, by simp, rfl⟩
  unfold parse_port
  rw [stoi_of_reads s _ hr]
  generalize digits_value s.toList = v
  by_cases hbig : (2147483647 : Int) < v
  · rw [if_pos hbig, if_neg (by omega)]
  · rw [if_neg hbig]
    show (if (v : Int) ≤ 0 ∨ (65535 : Int) < v then none else some ((v : Int) % 65536).toNat) = _
    by_cases hin : 1 ≤ v ∧ v ≤ 65535
    · rw [if_neg (by omega), if_pos hin]
      congr 1
      omega
    · rw [if_pos (by omega), if_neg hin]

/-- C8, as amended. In both programs the port step exits with code 1 exactly
when the argument does not begin, after optional white space and an
optional `+`, with a run of decimal digits whose value is between 1 and
65535; otherwise the configured port is the value of that run, and what
follows the run is ignored. For an argument made of decimal digits only
this is: exit 1 exactly when its value is not between 1 and 65535, the port
being that value otherwise. `"0"` and `"70000"` are rejected. -/
theorem parse_port_exit (s : String) :
    (parse_port s = none ↔ ¬ ∃ p, reads_port s.toList p ∧ 1 ≤ p ∧ p ≤ 65535) ∧
    (∀ p, parse_port s = some p ↔ reads_port s.toList p ∧ 1 ≤ p ∧ p ≤ 65535) ∧
    (∀ prog, server_args [prog, s] = none ↔ parse_port s = none) ∧
    (∀ prog ip, client_args [prog, ip, s] = none ↔ parse_port s = none) ∧
    (∀ prog ip p, parse_port s = some p →
      server_args [prog, s] = some { port := p } ∧ client_args [prog, ip, s] = some (ip, p)) ∧
    (s.toList ≠ [] → (∀ c ∈ s.toList, isdigit c = true) →
      (parse_port s = none ↔ ¬ (1 ≤ digits_value s.toList ∧ digits_value s.toList ≤ 65535)) ∧
      ∀ p, parse_port s = some p → p = digits_value s.toList) ∧
    parse_port "0" = none ∧ parse_port "70000" = none := by
  refine ⟨?_, parse_port_iff s, ?_, ?_, ?_, ?_, by decide, by decide⟩
  · constructor
    · intro h ⟨p, hp⟩
      rw [(parse_port_iff s p).mpr hp] at h
      exact absurd h (by simp)
    · intro h
      cases hpp : parse_port s with
      | none => rfl
      | some p => exact absurd ⟨p, (parse_port_iff s p).mp hpp⟩ h
  · intro prog
    cases hpp : parse_port s <;> simp [server_args, hpp, parse_flags]
  · intro prog ip
    cases hpp : parse_port s <;> simp [client_args, hpp]
  · intro prog ip p hpp
    simp [server_args, client_args, hpp, parse_flags]
  · intro hne hd
    rw [parse_port_of_digits s hne hd]
    constructor
    · split <;> simp_all
    · intro p hp
      split at hp
      · simpa using hp.symm
      · exact absurd hp (by simp)

/-- C8 on the arguments `"8080"` and `"65536"`. -/
theorem parse_port_exit_witness :
    parse_port "8080" = some 8080 ∧ parse_port "65536" = none ∧
    server_args ["echo-server", "8080"] = some { port := 8080 } ∧
    client_args ["echo-client", "127.0.0.1", "8080"] = some ("127.0.0.1", 8080) :=
  ⟨by decide,
    ((parse_port_exit "65536").2.2.2.2.2.1 (by decide) (by decide)).1.mpr (by decide),
    ((parse_port_exit "8080").2.2.2.2.1 "echo-server" "127.0.0.1" 8080 (by decide)).1,
    ((parse_port_exit "8080").2.2.2.2.1 "echo-client" "127.0.0.1" 8080 (by decide)).2⟩

/-- C8 as stated fails: `"12abc"` is not an integer, and both programs accept
it with port 12. -/
theorem parse_port_trailing_counterexample :
    isInteger "12abc" = false ∧ parse_port "12abc" = some 12 ∧
    server_args ["echo-server", "12abc"] = some { port := 12 } ∧
    client_args ["echo-client", "127.0.0.1", "12abc"] = some ("127.0.0.1", 12) := by
  decide

/-! ### C6: registry and sessions -/

theorem on_sigint_clients (w : World) : (on_sigint w).g_clients = w.g_clients := by
  unfold on_sigint
  simp only
  split <;> rfl

/-- A pass through the loop body of `client_thread` leaves the registry as it
is, whether it returns or `SIGPIPE` ends it. -/
theorem client_iter_clients (opts : ServerOptions) (cfd : Int) (buf : List Byte) (r : SysRet)
    (data : List Byte) (w : World) :
    (∀ nx buf1 w1, client_iter opts cfd buf r data w = Run.done (nx, buf1, w1) →
      w1.g_clients = w.g_clients) ∧
    (∀ w1, client_iter opts cfd buf r data w = Run.killed w1 → w1.g_clients = w.g_clients) := by
  constructor
  · intro nx buf1 w1 h
    unfold client_iter at h
    split at h
    · simp only [Run.done.injEq, Prod.mk.injEq] at h
      rw [← h.2.2]
      rfl
    · split at h
      · split at h
        · simp only [Run.done.injEq, Prod.mk.injEq] at h
          rw [← h.2.2]
          rfl
        · simp only [Run.done.injEq, Prod.mk.injEq] at h
          rw [← h.2.2]
          rfl
      · split at h
        · cases h
        · cases h
        · rename_i w3 hrel
          simp only [Run.done.injEq, Prod.mk.injEq] at h
          rw [← h.2.2]
          exact ((relay_frame _ _ _ _ _ hrel).1).trans rfl
  · intro w1 h
    unfold client_iter at h
    split at h
    · cases h
    · split at h
      · split at h
        · cases h
        · cases h
      · split at h
        · cases h
        · rename_i w3 hrel
          simp only [Run.killed.injEq] at h
          rw [← h]
          exact ((relay_killed_frame _ _ _ _ _ hrel).1).trans rfl
        · cases h

theorem countP_set_of_get (f : Sess → Bool) : ∀ (l : List Sess) (i : Nat) (a b : Sess),
    l.get? i = some b →
    (l.set i a).countP f + (if f b = true then 1 else 0) =
      l.countP f + (if f a = true then 1 else 0) := by
  intro l
  induction l with
  | nil => intro i a b h; simp at h
  | cons x rest ih =>
    intro i a b h
    cases i with
    | zero =>
      simp only [List.get?_cons_zero, Option.some.injEq] at h
      subst h
      simp only [List.set_cons_zero, List.countP_cons]
      omega
    | succ j =>
      simp only [List.get?_cons_succ] at h
      have := ih j a b h
      simp only [List.set_cons_succ, List.countP_cons]
      omega

/-- Replacing a session by one with the same handle that has not returned
from `remove_client_fd` either keeps all the counts. -/
theorem countP_set_same (l : List Sess) (i : Nat) (a b : Sess) (fd : Int)
    (hg : l.get? i = some b) (hc : a.cfd = b.cfd) (ha : a.unremoved = true)
    (hb : b.unremoved = true) :
    (l.set i a).countP (fun ss => decide (ss.cfd = fd) && ss.unremoved) =
      l.countP (fun ss => decide (ss.cfd = fd) && ss.unremoved) := by
  have := countP_set_of_get (fun ss => decide (ss.cfd = fd) && ss.unremoved) l i a b hg
  simp only [hc, ha, hb] at this
  omega

/-- The session that returns from `remove_client_fd` is counted no more. -/
theorem countP_set_closed (l : List Sess) (i : Nat) (cfd : Int) (buf : List Byte) (fd : Int)
    (hg : l.get? i = some ⟨cfd, SessPc.atRemove, buf⟩) :
    (l.set i ⟨cfd, SessPc.closed, buf⟩).countP (fun ss => decide (ss.cfd = fd) && ss.unremoved) +
        (if cfd = fd then 1 else 0) =
      l.countP (fun ss => decide (ss.cfd = fd) && ss.unremoved) := by
  have := countP_set_of_get (fun ss => decide (ss.cfd = fd) && ss.unremoved) l i
    ⟨cfd, SessPc.closed, buf⟩ ⟨cfd, SessPc.atRemove, buf⟩ hg
  simpa [Sess.unremoved] using this

/-- A step of the main thread keeps the bookkeeping. -/
theorem acceptor_step_inv (s s1 : Server) (r : SysRet)
    (hinv : registry_inv s) (h : acceptor_step s r = some s1) : registry_inv s1 := by
  obtain ⟨opts, w, acc, sessions, alive⟩ := s
  obtain ⟨hcnt, hclr⟩ := hinv
  simp only at hcnt hclr
  cases acc with
  | loopHead =>
    simp only [acceptor_step, Option.some.injEq] at h
    subst h
    have hc := hcnt rfl
    refine ⟨fun _ fd => ?_, fun he => ?_⟩
    · have := hc fd
      dsimp only
      split <;> simpa using this
    · dsimp only at he
      split at he <;> cases he
  | inAccept =>
    simp only [acceptor_step] at h
    have hc := hcnt rfl
    refine ⟨fun _ fd => ?_, fun he => ?_⟩
    · have := hc fd
      simp only [reduceCtorEq, if_false, Nat.add_zero] at this
      split at h
      · split at h
        · simp only [Option.some.injEq] at h
          subst h
          simpa [World.emit] using this
        · split at h <;>
          · simp only [Option.some.injEq] at h
            subst h
            simpa [World.emit] using this
      · simp only [Option.some.injEq] at h
        subst h
        simpa [World.emit] using this
    · split at h
      · split at h
        · simp only [Option.some.injEq] at h
          subst h
          cases he
        · split at h <;>
          · simp only [Option.some.injEq] at h
            subst h
            cases he
      · simp only [Option.some.injEq] at h
        subst h
        cases he
  | atPush cfd =>
    simp only [acceptor_step, Option.some.injEq] at h
    subst h
    have hc := hcnt rfl
    refine ⟨fun _ fd => ?_, fun he => by cases he⟩
    have := hc fd
    simp only [reduceCtorEq, if_false, Nat.add_zero] at this
    show (w.g_clients ++ [cfd]).count fd = _
    rw [List.count_append, this]
    by_cases hfd : cfd = fd
    · subst hfd
      simp
    · have h0 : List.count fd [cfd] = 0 :=
        List.count_eq_zero.mpr (by simpa using fun h1 : fd = cfd => hfd h1.symm)
      simp [hfd, h0]
  | atSpawn cfd =>
    simp only [acceptor_step, Option.some.injEq] at h
    subst h
    have hc := hcnt rfl
    refine ⟨fun _ fd => ?_, fun he => by cases he⟩
    have := hc fd
    show w.g_clients.count fd = _
    rw [this]
    simp only [List.countP_append, List.countP_cons, List.countP_nil, Sess.unremoved,
      AccPc.atSpawn.injEq, reduceCtorEq, if_false, Nat.add_zero, Nat.zero_add]
    by_cases hfd : cfd = fd
    · subst hfd
      simp
    · simp [hfd]
  | atCleanup =>
    simp only [acceptor_step, Option.some.injEq] at h
    subst h
    refine ⟨fun hx => (by cases hx), fun _ => ?_⟩
    simp only [shutdown_clients_spec]
  | atCloseListen =>
    simp only [acceptor_step, Option.some.injEq] at h
    subst h
    have h0 : w.g_clients = [] := hclr rfl
    refine ⟨fun hx => (by cases hx), fun _ => ?_⟩
    dsimp only
    split
    · exact h0
    · exact h0
  | atReturn =>
    simp only [acceptor_step, Option.some.injEq] at h
    subst h
    have h0 : w.g_clients = [] := hclr rfl
    exact ⟨fun hx => (by cases hx), fun _ => h0⟩
  | exited => simp [acceptor_step] at h

/-- A step of a session keeps the bookkeeping. -/
theorem session_step_inv (s s1 : Server) (i : Nat) (ss : Sess) (r : SysRet) (data : List Byte)
    (hinv : registry_inv s) (hg : s.sessions.get? i = some ss)
    (h : session_step s i ss r data = some s1) : registry_inv s1 := by
  obtain ⟨opts, w, acc, sessions, alive⟩ := s
  obtain ⟨cfd, pc, buf⟩ := ss
  obtain ⟨hcnt, hclr⟩ := hinv
  simp only at hcnt hclr hg
  have keep : ∀ (w1 : World) (a : Sess) (al : Bool), w1.g_clients = w.g_clients → a.cfd = cfd →
      a.unremoved = true → pc ≠ SessPc.closed →
      registry_inv { opts := opts, w := w1, acc := acc, sessions := sessions.set i a,
                     alive := al } := by
    intro w1 a al hw hc ha hpc
    refine ⟨fun hx fd => ?_, fun hx => ?_⟩
    · simp only [hw]
      rw [countP_set_same sessions i a ⟨cfd, pc, buf⟩ fd hg hc ha
        (by simpa [Sess.unremoved] using hpc)]
      exact hcnt hx fd
    · simp only [hw]
      exact hclr hx
  cases pc with
  | reading =>
    simp only [session_step] at h
    split at h
    · split at h
      · cases h
      · rename_i w1 hit
        simp only [Option.some.injEq] at h
        subst h
        have hw := (client_iter_clients _ _ _ _ _ _).2 w1 hit
        refine ⟨fun hx fd => ?_, fun hx => ?_⟩
        · simp only [hw]
          exact hcnt hx fd
        · simp only [hw]
          exact hclr hx
      · rename_i buf1 w1 hit
        simp only [Option.some.injEq] at h
        subst h
        exact keep w1 _ _ ((client_iter_clients _ _ _ _ _ _).1 _ _ _ hit) rfl rfl (by simp)
      · rename_i buf1 w1 hit
        simp only [Option.some.injEq] at h
        subst h
        exact keep w1 _ _ ((client_iter_clients _ _ _ _ _ _).1 _ _ _ hit) rfl rfl (by simp)
    · simp only [Option.some.injEq] at h
      subst h
      exact keep w _ _ rfl rfl rfl (by simp)
  | atShutdown =>
    simp only [session_step, Option.some.injEq] at h
    subst h
    exact keep _ _ _ rfl rfl rfl (by simp)
  | atClose =>
    simp only [session_step, Option.some.injEq] at h
    subst h
    exact keep _ _ _ rfl rfl rfl (by simp)
  | atRemove =>
    simp only [session_step, Option.some.injEq] at h
    subst h
    refine ⟨fun hx fd => ?_, fun hx => ?_⟩
    · have hset := countP_set_closed sessions i cfd buf fd hg
      have hc := hcnt hx fd
      show (w.g_clients.erase cfd).count fd =
        (sessions.set i ⟨cfd, SessPc.closed, buf⟩).countP
          (fun ss => decide (ss.cfd = fd) && ss.unremoved) +
          (if acc = AccPc.atSpawn fd then 1 else 0)
      by_cases hfd : cfd = fd
      · subst hfd
        rw [List.count_erase_self]
        rw [if_pos rfl] at hset
        omega
      · rw [List.count_erase_of_ne (fun h1 : fd = cfd => hfd h1.symm)]
        rw [if_neg hfd] at hset
        omega
    · show w.g_clients.erase cfd = []
      rw [hclr hx]
      rfl
  | closed => simp [session_step] at h

/-- A step of the process keeps the bookkeeping. -/
theorem step_inv (s s1 : Server) (a : Action) (hinv : registry_inv s)
    (h : step s a = some s1) : registry_inv s1 := by
  unfold step at h
  split at h
  · cases h
  · split at h
    · cases h
    · cases a with
      | sigint =>
        simp only [Option.some.injEq] at h
        subst h
        refine ⟨fun hx fd => ?_, fun hx => ?_⟩
        · simp only [on_sigint_clients]
          exact hinv.1 hx fd
        · simp only [on_sigint_clients]
          exact hinv.2 hx
      | acceptor r => exact acceptor_step_inv s s1 r hinv h
      | session i r data =>
        simp only at h
        split at h
        · cases h
        · rename_i ss hg
          exact session_step_inv s s1 i ss r data hinv hg h

/-- Every schedule keeps the bookkeeping. -/
theorem run_inv : ∀ (acts : List Action) (s s1 : Server), registry_inv s →
    run s acts = some s1 → registry_inv s1 := by
  intro acts
  induction acts with
  | nil =>
    intro s s1 hinv h
    simp only [run, Option.some.injEq] at h
    subst h
    exact hinv
  | cons a rest ih =>
    intro s s1 hinv h
    unfold run at h
    split at h
    · cases h
    · rename_i s2 hstep
      exact ih s2 s1 (step_inv s s2 a hinv hstep) h

theorem boot_inv (opts : ServerOptions) (listen_fd : Int) (sendq : List SysRet) :
    registry_inv (boot opts listen_fd sendq) := by
  refine ⟨fun _ fd => ?_, fun he => by cases he⟩
  simp [boot, initial]

/-- The three steps of the main thread after the accept loop are lines
183-194 of `main`, taken one statement at a time. -/
theorem termination_steps (s : Server) (r1 r2 r3 : SysRet) (hacc : s.acc = AccPc.atCleanup)
    (halive : s.alive = true) :
    run s [Action.acceptor r1, Action.acceptor r2, Action.acceptor r3] =
      some { s with w := (main_exit s.w).2, acc := AccPc.exited } := by
  obtain ⟨opts, w, acc, sessions, alive⟩ := s
  simp only at hacc halive
  subst hacc halive
  simp [run, step, acceptor_step, main_exit]

/-- C6, as amended. In every state the server reaches before the termination
sequence clears the registry, the registry holds a handle as many times as
there are sessions on that handle that have not returned from
`remove_client_fd` (reading, or in teardown before the removal), plus one
for a handle that is pushed and whose thread is not yet created. So a
handle is in the registry if and only if its thread is about to be created
or it has such a session, and a session that is alive and has not begun
teardown has its handle in the registry. In every state from the clearing
of the registry on, before and after `main` returns, the registry is empty
whatever the sessions do. -/
theorem registry_tracks_sessions (opts : ServerOptions) (listen_fd : Int)
    (sendq : List SysRet) (acts : List Action) (s : Server)
    (h : run (boot opts listen_fd sendq) acts = some s) :
    (s.acc.cleared = false → ∀ fd : Int,
      s.w.g_clients.count fd =
        s.sessions.countP (fun ss => decide (ss.cfd = fd) && ss.unremoved) +
          (if s.acc = AccPc.atSpawn fd then 1 else 0)) ∧
    (s.acc.cleared = false → ∀ fd : Int,
      (fd ∈ s.w.g_clients ↔
        s.acc = AccPc.atSpawn fd ∨ ∃ ss ∈ s.sessions, ss.cfd = fd ∧ ss.pc ≠ SessPc.closed)) ∧
    (s.acc.cleared = false → ∀ ss ∈ s.sessions, ss.live = true → ss.cfd ∈ s.w.g_clients) ∧
    (s.acc.cleared = true → s.w.g_clients = []) := by
  have hinv := run_inv acts _ s (boot_inv opts listen_fd sendq) h
  have hiff : s.acc.cleared = false → ∀ fd : Int,
      (fd ∈ s.w.g_clients ↔
        s.acc = AccPc.atSpawn fd ∨ ∃ ss ∈ s.sessions, ss.cfd = fd ∧ ss.pc ≠ SessPc.closed) := by
    intro hne fd
    have hc := hinv.1 hne fd
    rw [← List.count_pos_iff]
    constructor
    · intro hpos
      by_cases hacc : s.acc = AccPc.atSpawn fd
      · exact Or.inl hacc
      · right
        rw [if_neg hacc] at hc
        have hp : 0 < s.sessions.countP (fun ss => decide (ss.cfd = fd) && ss.unremoved) := by
          omega
        obtain ⟨ss, hm, hss⟩ := List.countP_pos_iff.mp hp
        simp only [Sess.unremoved, Bool.and_eq_true, decide_eq_true_eq] at hss
        exact ⟨ss, hm, hss.1, hss.2⟩
    · intro hor
      rcases hor with hacc | ⟨ss, hm, hcfd, hpc⟩
      · rw [if_pos hacc] at hc
        omega
      · have hp : 0 < s.sessions.countP (fun ss => decide (ss.cfd = fd) && ss.unremoved) :=
          List.countP_pos_iff.mpr ⟨ss, hm, by simp [Sess.unremoved, hcfd, hpc]⟩
        omega
  refine ⟨hinv.1, hiff, ?_, hinv.2⟩
  intro hne ss hm hlive
  simp only [Sess.live, decide_eq_true_eq] at hlive
  exact (hiff hne ss.cfd).mpr (Or.inr ⟨ss, hm, rfl, by simp [hlive]⟩)

/-- C6 on a run with two connections, the first of which has closed its
socket and not yet removed its handle. -/
theorem registry_tracks_sessions_witness :
    run (boot {} 3 []) [Action.acceptor ⟨0, 0⟩, Action.acceptor ⟨4, 0⟩, Action.acceptor ⟨0, 0⟩,
        Action.acceptor ⟨0, 0⟩, Action.acceptor ⟨0, 0⟩, Action.acceptor ⟨5, 0⟩,
        Action.acceptor ⟨0, 0⟩, Action.acceptor ⟨0, 0⟩, Action.session 0 ⟨0, 0⟩ [],
        Action.session 0 ⟨0, 0⟩ [], Action.session 0 ⟨0, 0⟩ []] =
      some { opts := {},
             w := { initial 3 [] with
               g_clients := [4, 5],
               trace := [Event.accept ⟨4, 0⟩, Event.lock, Event.unlock, Event.spawn 4,
                 Event.accept ⟨5, 0⟩, Event.lock, Event.unlock, Event.spawn 5,
                 Event.recv 4 ⟨0, 0⟩, Event.cerr Msg.disconnected, Event.shutdown 4,
                 Event.close 4] },
             acc := AccPc.loopHead,
             sessions := [⟨4, SessPc.atRemove, []⟩, ⟨5, SessPc.reading, []⟩],
             alive := true } ∧
    ((4 : Int) ∈ ([4, 5] : List Int) ↔
      AccPc.loopHead = AccPc.atSpawn 4 ∨
        ∃ ss ∈ [(⟨4, SessPc.atRemove, []⟩ : Sess), ⟨5, SessPc.reading, []⟩],
          ss.cfd = 4 ∧ ss.pc ≠ SessPc.closed) := by
  have hrun : run (boot {} 3 []) [Action.acceptor ⟨0, 0⟩, Action.acceptor ⟨4, 0⟩,
        Action.acceptor ⟨0, 0⟩, Action.acceptor ⟨0, 0⟩, Action.acceptor ⟨0, 0⟩,
        Action.acceptor ⟨5, 0⟩, Action.acceptor ⟨0, 0⟩, Action.acceptor ⟨0, 0⟩,
        Action.session 0 ⟨0, 0⟩ [], Action.session 0 ⟨0, 0⟩ [], Action.session 0 ⟨0, 0⟩ []] =
      some { opts := {},
             w := { initial 3 [] with
               g_clients := [4, 5],
               trace := [Event.accept ⟨4, 0⟩, Event.lock, Event.unlock, Event.spawn 4,
                 Event.accept ⟨5, 0⟩, Event.lock, Event.unlock, Event.spawn 5,
                 Event.recv 4 ⟨0, 0⟩, Event.cerr Msg.disconnected, Event.shutdown 4,
                 Event.close 4] },
             acc := AccPc.loopHead,
             sessions := [⟨4, SessPc.atRemove, []⟩, ⟨5, SessPc.reading, []⟩],
             alive := true } := by decide
  exact ⟨hrun, (registry_tracks_sessions {} 3 [] _ _ hrun).2.1 (by decide) 4⟩

/-- C6 as stated fails in both directions. After its session has run
`shutdown` and `close`, and so has begun teardown, handle 5 is still in
the registry, and no session on handle 5 is alive without having begun
teardown. And after `SIGINT`, once the main thread has cleared the
registry and before it returns from `main`, the session on handle 5 is
still reading and handle 5 is not in the registry. -/
theorem registry_during_teardown_counterexample :
    run (boot {} 3 []) [Action.acceptor ⟨0, 0⟩, Action.acceptor ⟨5, 0⟩, Action.acceptor ⟨0, 0⟩,
        Action.acceptor ⟨0, 0⟩, Action.session 0 ⟨0, 0⟩ [], Action.session 0 ⟨0, 0⟩ [],
        Action.session 0 ⟨0, 0⟩ []] =
      some { opts := {},
             w := { initial 3 [] with
               g_clients := [5],
               trace := [Event.accept ⟨5, 0⟩, Event.lock, Event.unlock, Event.spawn 5,
                 Event.recv 5 ⟨0, 0⟩, Event.cerr Msg.disconnected, Event.shutdown 5,
                 Event.close 5] },
             acc := AccPc.loopHead,
             sessions := [⟨5, SessPc.atRemove, []⟩],
             alive := true } ∧
    (5 : Int) ∈ ([5] : List Int) ∧
    ([(⟨5, SessPc.atRemove, []⟩ : Sess)].any (fun ss => decide (ss.cfd = 5) && ss.live)) = false ∧
    run (boot {} 3 []) [Action.acceptor ⟨0, 0⟩, Action.acceptor ⟨5, 0⟩, Action.acceptor ⟨0, 0⟩,
        Action.acceptor ⟨0, 0⟩, Action.sigint, Action.acceptor ⟨0, 0⟩, Action.acceptor ⟨0, 0⟩] =
      some { opts := {},
             w := { initial 3 [] with
               g_running := false,
               g_clients := [],
               trace := [Event.accept ⟨5, 0⟩, Event.lock, Event.unlock, Event.spawn 5,
                 Event.close 3, Event.lock, Event.shutdown 5, Event.close 5, Event.unlock] },
             acc := AccPc.atCloseListen,
             sessions := [⟨5, SessPc.reading, []⟩],
             alive := true } ∧
    ([(⟨5, SessPc.reading, []⟩ : Sess)].any (fun ss => decide (ss.cfd = 5) && ss.live)) = true ∧
    (5 : Int) ∉ ([] : List Int) := by
  decide

end EchoServer
